import Mathlib

/-!
Verification development for a line-oriented pseudocode interpreter
(`PseudocodeInterpreter.ts`).  The interpreter keeps an explicit execution
state (variable environment, program counter, frame stack) and exposes a
`step()` operation that executes one program line.  This file gives a shallow
embedding of that interpreter: the TypeScript class becomes a pure Lean state
transformer, machine values become the inductive `Value`, and the host
JavaScript `eval` used for formulas becomes an executable evaluator for the
expression fragment the interpreter feeds it.  All definitions are executable
so that concrete programs can be run by `decide`/`rfl`.

Conventions:
* The JS `undefined` value is `Value.undef`; JS `NaN` is `Value.nan`.
* A function returning `Option` models a JS computation that can throw or
  fail to terminate within the given fuel; `none` never occurs on the
  concrete runs proved below.
* The frame stack is a Lean list whose head is the top of the TS array
  (TS `push`/`pop` work at the array end).
-/

namespace Pseudo

/-- Runtime values of the interpreter: JS numbers (restricted to the integer
fragment the interpreter's programs use), strings, booleans, arrays,
`undefined` and `NaN`.  A JS array is the cons chain `vcons e₀ (vcons e₁ …
vnil)` — kept first-order (rather than carrying a `List Value`) so that
every function on values is plain structural recursion. -/
inductive Value where
  | num (n : Int)
  | str (s : String)
  | bool (b : Bool)
  | vnil
  | vcons (h t : Value)
  | undef
  | nan
  deriving DecidableEq, Repr

/-- Is the value a JS array (`Array.isArray`)? -/
def isArr : Value → Bool
  | .vnil => true
  | .vcons _ _ => true
  | _ => false

/-- Build an array value from a Lean list of elements. -/
def vlist : List Value → Value
  | [] => .vnil
  | h :: t => .vcons h (vlist t)

/-- `array.length`. -/
def vlen : Value → Nat
  | .vcons _ t => vlen t + 1
  | _ => 0

/-- `array[n]` for an in-range index (`undefined` past the end). -/
def vAt : Value → Nat → Value
  | .vcons h _, 0 => h
  | .vcons _ t, n + 1 => vAt t n
  | _, _ => Value.undef

/-- `array[n] = v` with JS growth: indices past the end pad with
`undefined` holes. -/
def vSetPad : Value → Nat → Value → Value
  | .vcons _ t, 0, v => .vcons v t
  | .vcons h t, n + 1, v => .vcons h (vSetPad t n v)
  | _, 0, v => .vcons v .vnil
  | _, n + 1, v => .vcons .undef (vSetPad .vnil n v)

/-- JS truthiness: `0`, `NaN`, `""`, `false`, `undefined` are falsy; every
object (including the empty array) is truthy. -/
def truthy : Value → Bool
  | .num n => n != 0
  | .str s => s != ""
  | .bool b => b
  | .vnil => true
  | .vcons _ _ => true
  | .undef => false
  | .nan => false

/-- JS `String(v)` coercion: arrays render as their comma-joined elements
(`Array.prototype.toString`), with `undefined` elements rendering empty
(a `vcons` renders its head — empty for `undefined` — then a comma and the
rendered tail). -/
def jsToString : Value → String
  | .num n => toString n
  | .str s => s
  | .bool b => if b then "true" else "false"
  | .vnil => ""
  | .vcons h t =>
    (match h with
     | .undef => ""
     | _ => jsToString h) ++
    (match t with
     | .vnil => ""
     | _ => "," ++ jsToString t)
  | .undef => "undefined"
  | .nan => "NaN"

/-- `JSON.stringify` restricted to the value fragment in use (no escape
sequences arise in the interpreter's programs).  The flag selects between
rendering a value and rendering the comma-prefixed items of an array
tail. -/
def jsonRender : Bool → Value → String
  | false, .num n => toString n
  | false, .str s => "\"" ++ s ++ "\""
  | false, .bool b => if b then "true" else "false"
  | false, .vnil => "[]"
  | false, .vcons h t => "[" ++ jsonRender false h ++ jsonRender true t ++ "]"
  | false, .undef => "null"
  | false, .nan => "null"
  | true, .vnil => ""
  | true, .vcons h t => "," ++ jsonRender false h ++ jsonRender true t
  | true, .num n => "," ++ toString n
  | true, .str s => "," ++ "\"" ++ s ++ "\""
  | true, .bool b => "," ++ (if b then "true" else "false")
  | true, .undef => ",null"
  | true, .nan => ",null"

/-- `JSON.stringify(v)` (applied to arrays only in the interpreter). -/
def jsonStringify (v : Value) : String :=
  jsonRender false v

/-- Is `c` a JS word character (`\w` = `[A-Za-z0-9_]`)? -/
def wordChar (c : Char) : Bool :=
  (('a' ≤ c && c ≤ 'z') || ('A' ≤ c && c ≤ 'Z') || ('0' ≤ c && c ≤ '9') || c = '_')

/-- Is `c` whitespace for `\s` (ASCII fragment; program lines are trimmed). -/
def wsChar (c : Char) : Bool :=
  (c = ' ' || c = '\t' || c = '\n' || c = '\r' || c = '\x0b' || c = '\x0c')

/-- ASCII uppercase of one character (JS `toUpperCase` on the ASCII lines the
interpreter handles). -/
def upChar (c : Char) : Char :=
  if 'a' ≤ c ∧ c ≤ 'z' then Char.ofNat (c.toNat - 32) else c

/-- ASCII `toUpperCase` of a string. -/
def upper (s : String) : String :=
  ⟨s.data.map upChar⟩

/-- Is `c` an ASCII decimal digit? -/
def digitChar (c : Char) : Bool :=
  '0' ≤ c && c ≤ '9'

/-- Maximal digit run at the front of `cs`, with the rest. -/
def takeDigits : List Char → (List Char × List Char)
  | [] => ([], [])
  | c :: cs =>
    if digitChar c then
      let (d, r) := takeDigits cs
      (c :: d, r)
    else ([], c :: cs)

/-- Maximal `\w+` run at the front of `cs`, with the rest. -/
def takeWord : List Char → (List Char × List Char)
  | [] => ([], [])
  | c :: cs =>
    if wordChar c then
      let (d, r) := takeWord cs
      (c :: d, r)
    else ([], c :: cs)

/-- Drop leading `\s*`. -/
def skipWs : List Char → List Char
  | [] => []
  | c :: cs => if wsChar c then skipWs cs else c :: cs

/-- Require at least one whitespace character, then drop the maximal run. -/
def skipWs1 : List Char → Option (List Char)
  | [] => none
  | c :: cs => if wsChar c then some (skipWs cs) else none

/-- Digits to a natural number (most significant first). -/
def digitsToNat (ds : List Char) : Nat :=
  ds.foldl (fun acc c => acc * 10 + (c.toNat - '0'.toNat)) 0

/-- Case-insensitive literal match: consume `kw` from the front of `cs`. -/
def matchCI : List Char → List Char → Option (List Char)
  | [], cs => some cs
  | _, [] => none
  | k :: ks, c :: cs => if upChar c = upChar k then matchCI ks cs else none

/-- Exact prefix test on character lists. -/
def listStarts : List Char → List Char → Bool
  | [], _ => true
  | _, [] => false
  | p :: ps, c :: cs => p = c && listStarts ps cs

/-- `s.startsWith p` (all strings in play are ASCII). -/
def strStarts (s p : String) : Bool :=
  listStarts p.data s.data

/-- `s.endsWith p`. -/
def strEnds (s p : String) : Bool :=
  listStarts p.data.reverse s.data.reverse

/-- `s.trim` on the ASCII whitespace the program text uses. -/
def myTrim (s : String) : String :=
  String.mk ((skipWs (skipWs s.data).reverse).reverse)

/-- `s.includes(c)`. -/
def strContains (s : String) (c : Char) : Bool :=
  s.data.contains c

/-- `s.split(sep)` for a one-character separator (splitting `""` yields
`[""]`, as in JS). -/
def splitCharGo (sep : Char) : List Char → List Char → List String
  | [], cur => [String.mk cur.reverse]
  | c :: t, cur =>
    if c = sep then String.mk cur.reverse :: splitCharGo sep t []
    else splitCharGo sep t (c :: cur)

/-- Split a string at every occurrence of one character. -/
def splitChar (sep : Char) (s : String) : List String :=
  splitCharGo sep s.data []

/-- Number coercion to the integer fragment: `none` is JS `NaN`.
`Number("")` is `0`; arrays coerce through their join string. -/
def strToNumber (s : String) : Option Int :=
  let cs := skipWs s.data
  match cs with
  | [] => some 0
  | _ =>
    let (sign, cs') : Int × List Char :=
      match cs with
      | '-' :: r => (-1, r)
      | '+' :: r => (1, r)
      | r => (1, r)
    let (ds, r) := takeDigits cs'
    match ds, skipWs r with
    | [], _ => none
    | _, [] => some (sign * (digitsToNat ds : Int))
    | _, _ :: _ => none

/-- JS `Number(v)` on the modelled fragment (`none` = `NaN`). -/
def toNumberV : Value → Option Int
  | .num n => some n
  | .bool b => some (if b then 1 else 0)
  | .str s => strToNumber s
  | .undef => none
  | .nan => none
  | .vnil => strToNumber ""
  | .vcons h t => strToNumber (jsToString (.vcons h t))

/-- Tokens of the JS expression fragment the interpreter feeds to `eval`. -/
inductive JsTok where
  | num (n : Int)
  | str (s : String)
  | ident (s : String)
  | op (s : String)
  deriving Repr, DecidableEq

/-- Read a string literal body up to the closing quote. -/
def readStr : List Char → Option (List Char × List Char)
  | [] => none
  | c :: cs =>
    if c = '"' then some ([], cs)
    else match readStr cs with
      | some (body, rest) => some (c :: body, rest)
      | none => none

/-- Fuel-driven tokenizer body for the modelled `eval` fragment: integer
literals, double quoted strings, identifiers, comparison/arithmetic/logical
operators and parentheses.  Anything else (e.g. `@`, `/`, floats) is outside
the fragment and makes evaluation fail (the thrown-`SyntaxError` case).
Every branch consumes at least one character, so fuel `length + 1` (supplied
by `jsTokenize`) is always sufficient. -/
def jsTokenizeF : Nat → List Char → Option (List JsTok)
  | 0, _ => none
  | _, [] => some []
  | fuel + 1, c :: cs =>
    if wsChar c then jsTokenizeF fuel cs
    else if digitChar c then
      let (ds, r) := takeDigits (c :: cs)
      match r with
      | '.' :: _ => none
      | _ =>
        match jsTokenizeF fuel r with
        | some ts => some (.num (digitsToNat ds) :: ts)
        | none => none
    else if wordChar c then
      let (w, r) := takeWord (c :: cs)
      match jsTokenizeF fuel r with
      | some ts => some (.ident (String.mk w) :: ts)
      | none => none
    else if c = '"' then
      match readStr cs with
      | some (body, rest) =>
        match jsTokenizeF fuel rest with
        | some ts => some (.str (String.mk body) :: ts)
        | none => none
      | none => none
    else
      let two : Option (String × List Char) :=
        match c, cs with
        | '=', '=' :: '=' :: r => some ("==", r)
        | '=', '=' :: r => some ("==", r)
        | '!', '=' :: '=' :: r => some ("!=", r)
        | '!', '=' :: r => some ("!=", r)
        | '<', '=' :: r => some ("<=", r)
        | '>', '=' :: r => some (">=", r)
        | '&', '&' :: r => some ("&&", r)
        | '|', '|' :: r => some ("||", r)
        | '<', r => some ("<", r)
        | '>', r => some (">", r)
        | '+', r => some ("+", r)
        | '-', r => some ("-", r)
        | '*', r => some ("*", r)
        | '%', r => some ("%", r)
        | '!', r => some ("!", r)
        | '(', r => some ("(", r)
        | ')', r => some (")", r)
        | '[', r => some ("[", r)
        | ']', r => some ("]", r)
        | ',', r => some (",", r)
        | _, _ => none
      match two with
      | some (o, r) =>
        match jsTokenizeF fuel r with
        | some ts => some (.op o :: ts)
        | none => none
      | none => none

/-- Tokenize a whole character list. -/
def jsTokenize (cs : List Char) : Option (List JsTok) :=
  jsTokenizeF (cs.length + 1) cs

/-- Abstract syntax of the modelled `eval` fragment. -/
inductive JsExpr where
  | lit (v : Value)
  | bad (s : String)
  | un (o : String) (a : JsExpr)
  | bin (o : String) (a b : JsExpr)
  | arr (es : List JsExpr)

/-- Left-associative binary-operator chain: parse further `op operand`
pairs at one precedence level.  `next` parses the next-higher level; fuel is
bounded by the token count, so the supplied `length + 1` never runs out. -/
def chainLevel (next : List JsTok → Option (JsExpr × List JsTok))
    (ops : List String) :
    Nat → JsExpr → List JsTok → Option (JsExpr × List JsTok)
  | 0, _, _ => none
  | fuel + 1, a, ts =>
    match ts with
    | .op o :: r =>
      if ops.contains o then
        match next r with
        | none => none
        | some (b, rest) => chainLevel next ops fuel (.bin o a b) rest
      else some (a, ts)
    | _ => some (a, ts)

/-- One precedence level: parse a first operand with `next`, then chain. -/
def level (next : List JsTok → Option (JsExpr × List JsTok))
    (ops : List String) (ts : List JsTok) : Option (JsExpr × List JsTok) :=
  match next ts with
  | none => none
  | some (a, r) => chainLevel next ops (r.length + 1) a r

/-- Comma-separated array-literal elements, each parsed by `pOr`. -/
def parseArrElemsW (pOr : List JsTok → Option (JsExpr × List JsTok)) :
    Nat → List JsTok → Option (List JsExpr × List JsTok)
  | 0, _ => none
  | fuel + 1, ts =>
    match pOr ts with
    | none => none
    | some (a, rest) =>
      match rest with
      | .op "," :: r2 =>
        match parseArrElemsW pOr fuel r2 with
        | none => none
        | some (es, rest') => some (a :: es, rest')
      | _ => some ([a], rest)

/-- Atoms: literals, the global bindings `undefined`/`NaN`/`null`/`true`/
`false` (`null` is identified with `undefined` in the model: both are
falsy, join empty and print the same through the paths in use), unknown
identifiers (a `ReferenceError` at evaluation time), array literals (the
JSON forms the variable substitution produces) and parenthesised
subexpressions (parsed by the top-level parser `pOr`). -/
def parseAtomW (pOr : List JsTok → Option (JsExpr × List JsTok))
    (ts : List JsTok) : Option (JsExpr × List JsTok) :=
  match ts with
  | .num n :: r => some (.lit (.num n), r)
  | .str s :: r => some (.lit (.str s), r)
  | .ident "true" :: r => some (.lit (.bool true), r)
  | .ident "false" :: r => some (.lit (.bool false), r)
  | .ident "undefined" :: r => some (.lit .undef, r)
  | .ident "null" :: r => some (.lit .undef, r)
  | .ident "NaN" :: r => some (.lit .nan, r)
  | .ident s :: r => some (.bad s, r)
  | .op "[" :: r =>
    match r with
    | .op "]" :: rest => some (.arr [], rest)
    | _ =>
      match parseArrElemsW pOr (r.length + 1) r with
      | some (es, .op "]" :: rest) => some (.arr es, rest)
      | _ => none
  | .op "(" :: r =>
    match pOr r with
    | none => none
    | some (a, rest) =>
      match rest with
      | .op ")" :: rest' => some (a, rest')
      | _ => none
  | _ => none

/-- Unary level (`!`, unary `-`), with the atom parser as base. -/
def parseUnaryW (atom : List JsTok → Option (JsExpr × List JsTok)) :
    Nat → List JsTok → Option (JsExpr × List JsTok)
  | 0, _ => none
  | fuel + 1, ts =>
    match ts with
    | .op "!" :: r =>
      match parseUnaryW atom fuel r with
      | none => none
      | some (a, rest) => some (.un "!" a, rest)
    | .op "-" :: r =>
      match parseUnaryW atom fuel r with
      | none => none
      | some (a, rest) => some (.un "-" a, rest)
    | _ => atom ts

/-- The whole precedence tower (`! -` > `* %` > `+ -` > relational >
equality > `&&` > `||`), parameterised by the top-level parser used inside
parentheses. -/
def parseLevels (pOr : List JsTok → Option (JsExpr × List JsTok))
    (ts : List JsTok) : Option (JsExpr × List JsTok) :=
  let atom := parseAtomW pOr
  let unary := fun l => parseUnaryW atom (l.length + 1) l
  let mul := level unary ["*", "%"]
  let add := level mul ["+", "-"]
  let rel := level add ["<", "<=", ">", ">="]
  let eqv := level rel ["==", "!="]
  let lAnd := level eqv ["&&"]
  let lOr := level lAnd ["||"]
  lOr ts

/-- Fuel-indexed top-level parser (fuel only bounds nesting of
parentheses). -/
def parseOrF : Nat → List JsTok → Option (JsExpr × List JsTok)
  | 0, _ => none
  | fuel + 1, ts => parseLevels (parseOrF fuel) ts


/-- JS `+`: string concatenation if either operand is a string (arrays
coerce through their join string), otherwise numeric addition. -/
def jsAddStrish : Value → Bool
  | .str _ => true
  | .vnil => true
  | .vcons _ _ => true
  | _ => false

/-- JS `+`: string concatenation if either operand is a string (arrays
coerce through their join string), otherwise numeric addition. -/
def jsAdd (a b : Value) : Value :=
  if jsAddStrish a || jsAddStrish b then
    .str (jsToString a ++ jsToString b)
  else
    match toNumberV a, toNumberV b with
    | some x, some y => .num (x + y)
    | _, _ => .nan

/-- JS numeric binary operators (`-`, `*`, `%`); `NaN` propagates and
`x % 0` is `NaN`.  `%` is the JS truncated remainder. -/
def jsArith (o : String) (a b : Value) : Value :=
  match toNumberV a, toNumberV b with
  | some x, some y =>
    match o with
    | "-" => .num (x - y)
    | "*" => .num (x * y)
    | "%" => if y = 0 then .nan else .num (Int.tmod x y)
    | _ => .nan
  | _, _ => .nan

/-- JS relational comparison: lexicographic when both operands are strings,
numeric otherwise, false whenever a coercion yields `NaN`. -/
def jsRel (o : String) (a b : Value) : Value :=
  match a, b with
  | .str x, .str y =>
    .bool (match o with
      | "<" => decide (x < y)
      | "<=" => decide (x ≤ y)
      | ">" => decide (y < x)
      | ">=" => decide (y ≤ x)
      | _ => false)
  | _, _ =>
    match toNumberV a, toNumberV b with
    | some x, some y =>
      .bool (match o with
        | "<" => decide (x < y)
        | "<=" => decide (x ≤ y)
        | ">" => decide (y < x)
        | ">=" => decide (y ≤ x)
        | _ => false)
    | _, _ => .bool false

/-- JS loose equality of a string against a primitive (used when an array
has been coerced to its join string). -/
def jsEqStrPrim (s : String) : Value → Bool
  | .str y => s == y
  | .num y =>
    match strToNumber s with
    | some u => u == y
    | none => false
  | .bool y =>
    match strToNumber s with
    | some u => u == (if y then (1 : Int) else 0)
    | none => false
  | _ => false

/-- JS loose equality on the modelled fragment (arrays compare by reference
in JS, so two separately produced arrays are unequal). -/
def jsEq (a b : Value) : Bool :=
  match a, b with
  | .nan, _ => false
  | _, .nan => false
  | .undef, .undef => true
  | .undef, _ => false
  | _, .undef => false
  | .num x, .num y => x == y
  | .str x, .str y => x == y
  | .bool x, .bool y => x == y
  | .vnil, .vnil => false
  | .vnil, .vcons _ _ => false
  | .vcons _ _, .vnil => false
  | .vcons _ _, .vcons _ _ => false
  | .vnil, y => jsEqStrPrim (jsToString Value.vnil) y
  | .vcons h t, y => jsEqStrPrim (jsToString (.vcons h t)) y
  | x, .vnil => jsEqStrPrim (jsToString Value.vnil) x
  | x, .vcons h t => jsEqStrPrim (jsToString (.vcons h t)) x
  | x, y =>
    match toNumberV x, toNumberV y with
    | some u, some v => u == v
    | _, _ => false

/-- Evaluate every element of an array literal (left to right, failure
propagates); the element evaluator is passed in to close the recursion. -/
def jsEvalElems (evalOne : JsExpr → Option Value) : List JsExpr → Option (List Value)
  | [] => some []
  | e :: rest =>
    match evalOne e with
    | none => none
    | some v =>
      match jsEvalElems evalOne rest with
      | none => none
      | some vs => some (v :: vs)

/-- Evaluate a parsed JS expression; `none` is a thrown `ReferenceError`.
`&&`/`||` short-circuit and return the deciding operand's value.  The fuel
only bounds the tree depth. -/
def jsEvalAstF : Nat → JsExpr → Option Value
  | 0, _ => none
  | fuel + 1, e =>
    match e with
    | .lit v => some v
    | .bad _ => none
    | .arr es =>
      match jsEvalElems (jsEvalAstF fuel) es with
      | some vs => some (vlist vs)
      | none => none
    | .un "!" a =>
      match jsEvalAstF fuel a with
      | some v => some (.bool (!truthy v))
      | none => none
    | .un "-" a =>
      match jsEvalAstF fuel a with
      | some v =>
        match toNumberV v with
        | some n => some (.num (-n))
        | none => some .nan
      | none => none
    | .un _ _ => none
    | .bin "&&" a b =>
      match jsEvalAstF fuel a with
      | some va => if truthy va then jsEvalAstF fuel b else some va
      | none => none
    | .bin "||" a b =>
      match jsEvalAstF fuel a with
      | some va => if truthy va then some va else jsEvalAstF fuel b
      | none => none
    | .bin o a b =>
      match jsEvalAstF fuel a, jsEvalAstF fuel b with
      | some va, some vb =>
        match o with
        | "+" => some (jsAdd va vb)
        | "-" => some (jsArith "-" va vb)
        | "*" => some (jsArith "*" va vb)
        | "%" => some (jsArith "%" va vb)
        | "<" => some (jsRel "<" va vb)
        | "<=" => some (jsRel "<=" va vb)
        | ">" => some (jsRel ">" va vb)
        | ">=" => some (jsRel ">=" va vb)
        | "==" => some (.bool (jsEq va vb))
        | "!=" => some (.bool (!jsEq va vb))
        | _ => none
      | _, _ => none

/-- Model of the host `eval` on the expression strings the interpreter
produces: tokenize, parse with conventional precedence, evaluate.  `none`
models a thrown exception (syntax error, reference error, out-of-fragment
input); `eval("")` yields `undefined`. -/
def evalJS (s : String) : Option Value :=
  match jsTokenize s.data with
  | none => none
  | some [] => some .undef
  | some ts =>
    match parseOrF (ts.length + 1) ts with
    | some (a, []) => jsEvalAstF (ts.length + 1) a
    | _ => none


/-! ## Data model of the interpreter -/

/-- One entry of the TS `callStack` (the `type` field distinguishes
`IF`/`WHILE`/`FOR`/`FUNCTION_CALL` frames; unused optional fields stay
`none`). -/
structure Frame where
  line : Nat
  type : String
  condition : Option String := none
  loopVar : Option String := none
  loopEnd : Option Value := none
  returnLine : Option Nat := none
  savedVariables : Option (List (String × Value)) := none
  functionName : Option String := none

/-- The TS `ExecutionState`, extended with the list of strings passed to the
output callback so far (newest last), which models the output side-effect. -/
structure ExecutionState where
  «variables» : List (String × Value)
  currentLine : Nat
  finished : Bool
  callStack : List Frame
  output : List String

/-- The TS `FunctionDefinition`. -/
structure FunctionDefinition where
  name : String
  params : List String
  startLine : Nat
  endLine : Nat

/-- The immutable part of the interpreter object: the tokenized program, the
function table and the input callback (`none` models the callback returning
`null`). -/
structure Interp where
  lines : List String
  functions : List (String × FunctionDefinition)
  input : String → Option String

/-- JS-object lookup on an insertion-ordered association list. -/
def envGet {α : Type} : List (String × α) → String → Option α
  | [], _ => none
  | (k', v) :: t, k => if k' = k then some v else envGet t k

/-- JS-object property write: update in place, append if new. -/
def envSet {α : Type} : List (String × α) → String → α → List (String × α)
  | [], k, v => [(k, v)]
  | (k', v') :: t, k, v =>
    if k' = k then (k, v) :: t else (k', v') :: envSet t k v

/-- `!variables[name]` in the array-assignment branches: unbound or falsy. -/
def isFalsyOpt : Option Value → Bool
  | none => true
  | some v => !truthy v

/-! ## Block matcher (`findMatchingEnd`) -/

/-- Scan loop of `findMatchingEnd`: `rest` is the suffix of the program
starting at index `i`; `total` is the line count returned when no closer is
found. -/
def fmeGo (bt : String) (total : Nat) : List String → Nat → Nat → Nat
  | [], _, _ => total
  | l :: rest, i, depth =>
    let u := upper l
    if strStarts u (bt ++ " ") then fmeGo bt total rest (i + 1) (depth + 1)
    else if u = "END " ++ bt || u = "END" ++ bt
        || (bt = "FOR" && strStarts u "NEXT ") then
      if depth = 1 then i else fmeGo bt total rest (i + 1) (depth - 1)
    else if bt = "IF" && u = "ELSE" && depth = 1 then i
    else fmeGo bt total rest (i + 1) depth

/-- The TS `findMatchingEnd(blockType, startLine)`: scan forward from
`startLine + 1` at nesting depth 1; a recurrence of the opening keyword
increments depth; `END <kw>`/`END<kw>` (plus `NEXT …` for `FOR`)
decrements, returning its index on reaching zero; for `IF` an `ELSE` at
depth 1 returns immediately; no match returns the line count. -/
def findMatchingEnd (lines : List String) (bt : String) (startLine : Nat) : Nat :=
  fmeGo bt lines.length (lines.drop (startLine + 1)) (startLine + 1) 1

/-! ## Statement pattern matching

Each TS `line.match(regex)` becomes a hand parser.  Unanchored regexes are
modelled by `scanPos`, which tries the pattern at every start position,
leftmost first, exactly as the JS regex engine does.  The patterns in use
never need interior backtracking: a maximal `\w+` run followed by a
mandatory `\s+`, keyword or bracket cannot succeed with a shorter run, and
greedy `(.+)\s+KW` groups are resolved by taking the last keyword position
with a whitespace character before it. -/

/-- Try the parser at every position, leftmost match first. -/
def scanPos {α : Type} (p : List Char → Option α) : List Char → Option α
  | [] => p []
  | c :: t =>
    match p (c :: t) with
    | some r => some r
    | none => scanPos p t

/-- Consume an exact (case-sensitive) literal. -/
def consumeExact : List Char → List Char → Option (List Char)
  | [], cs => some cs
  | _, [] => none
  | k :: ks, c :: cs => if c = k then consumeExact ks cs else none

/-- Characters before the first occurrence of `d`, and the rest after it. -/
def takeUntil (d : Char) : List Char → Option (List Char × List Char)
  | [] => none
  | c :: cs =>
    if c = d then some ([], cs)
    else
      match takeUntil d cs with
      | some (a, b) => some (c :: a, b)
      | none => none

/-- Assignment target `\w+(?:\[\w+\])?`: the target text and the rest. -/
def parseTarget (cs : List Char) : Option (List Char × List Char) :=
  let (w, r) := takeWord cs
  if w.isEmpty then none
  else
    match r with
    | '[' :: r2 =>
      let (w2, r3) := takeWord r2
      if w2.isEmpty then none
      else
        match r3 with
        | ']' :: r4 => some (w ++ '[' :: (w2 ++ [']']), r4)
        | _ => none
    | _ => some (w, r)

/-- The anchored arrow-assignment pattern
`^(\w+(?:\[\w+\])?)\s*←\s*(.+)$` → (target, expression). -/
def parseArrowAssign (line : String) : Option (String × String) :=
  match parseTarget line.data with
  | none => none
  | some (tgt, r) =>
    match skipWs r with
    | '←' :: r3 =>
      let r4 := skipWs r3
      if r4.isEmpty then none else some (String.mk tgt, String.mk r4)
    | _ => none

/-- Split at the last occurrence of `d`. -/
def splitLastDelim (d : Char) (cs : List Char) : Option (List Char × List Char) :=
  match takeUntil d cs.reverse with
  | some (aRev, bRev) => some (bRev.reverse, aRev.reverse)
  | none => none

/-- The array-target pattern `(\w+)\[(.+)\]` applied to an assignment
target → (array name, index expression).  The greedy `(.+)` reaches the
last `]`. -/
def parseArrayTarget (t : String) : Option (String × String) :=
  let (w, r) := takeWord t.data
  if w.isEmpty then none
  else
    match r with
    | '[' :: r2 =>
      match splitLastDelim ']' r2 with
      | some (idx, rest) =>
        if idx.isEmpty || !rest.isEmpty then none
        else some (String.mk w, String.mk idx)
      | none => none
    | _ => none

/-- `SET\s+(\w+(?:\[\w+\])?)\s+TO\s+(.+)` at one position. -/
def parseSetAt (cs : List Char) : Option (String × String) :=
  match matchCI "SET".data cs with
  | none => none
  | some r =>
    match skipWs1 r with
    | none => none
    | some r2 =>
      match parseTarget r2 with
      | none => none
      | some (tgt, r3) =>
        match skipWs1 r3 with
        | none => none
        | some r4 =>
          match matchCI "TO".data r4 with
          | none => none
          | some r5 =>
            match skipWs1 r5 with
            | none => none
            | some r6 =>
              if r6.isEmpty then none
              else some (String.mk tgt, String.mk r6)

/-- Helper for greedy `(.+)\s+KW` groups: the maximal `k ≥ 1` such that
position `k` holds whitespace and `KW` matches (case-insensitively) at
`k + 1`; iterates left to right keeping the last hit. -/
def lastKwSplit (tail : List Char) : List Char → Nat → Option Nat → Option Nat
  | [], _, best => best
  | c :: rest, k, best =>
    let best' :=
      if wsChar c && decide (1 ≤ k) && (matchCI tail rest).isSome then some k
      else best
    lastKwSplit tail rest (k + 1) best'

/-- `KW1\s+(.+)\s+KW2` at one position (used for `IF … THEN` and
`WHILE … DO`) → the middle group. -/
def parseHeadTailAt (head tail : String) (cs : List Char) : Option String :=
  match matchCI head.data cs with
  | none => none
  | some r0 =>
    match skipWs1 r0 with
    | none => none
    | some r =>
      match lastKwSplit tail.data r 0 none with
      | some k => some (String.mk (r.take k))
      | none => none

/-- Greedy split for `(.+)\s+TO\s+(.+)`: maximal first group such that a
whitespace run, `TO` and a non-empty remainder follow.  Iterates left to
right keeping the last hit, returning (first group, remainder). -/
def lastToSplit : List Char → Nat → List Char →
    Option (List Char × List Char) → Option (List Char × List Char)
  | [], _, _, best => best
  | c :: rest, k, orig, best =>
    let best' :=
      if wsChar c && decide (1 ≤ k) then
        match matchCI "TO".data rest with
        | some r2 =>
          match skipWs1 r2 with
          | some r3 => if r3.isEmpty then best else some (orig.take k, r3)
          | none => best
        | none => best
      else best
    lastToSplit rest (k + 1) orig best'

/-- `FOR\s+(\w+)\s*←\s*(.+)\s+TO\s+(.+)` at one position →
(variable, start expression, end expression). -/
def parseForArrowAt (cs : List Char) : Option (String × String × String) :=
  match matchCI "FOR".data cs with
  | none => none
  | some r0 =>
    match skipWs1 r0 with
    | none => none
    | some r1 =>
      let (w, r2) := takeWord r1
      if w.isEmpty then none
      else
        match skipWs r2 with
        | '←' :: r3 =>
          let r4 := skipWs r3
          match lastToSplit r4 0 r4 none with
          | some (s, e) => some (String.mk w, String.mk s, String.mk e)
          | none => none
        | _ => none

/-- Greedy right split for a final `\s+KW` (used for the `DO` of the
`FOR … FROM` form): maximal prefix with whitespace and `KW` after it. -/
def lastEndKwSplit (tail : List Char) : List Char → Nat → Option Nat → Option Nat
  | [], _, best => best
  | c :: rest, k, best =>
    let best' :=
      if wsChar c && decide (1 ≤ k) && (matchCI tail rest).isSome then some k
      else best
    lastEndKwSplit tail rest (k + 1) best'

/-- `FOR\s+(\w+)\s+FROM\s+(.+)\s+TO\s+(.+)\s+DO` at one position. -/
def parseForFromAt (cs : List Char) : Option (String × String × String) :=
  match matchCI "FOR".data cs with
  | none => none
  | some r0 =>
    match skipWs1 r0 with
    | none => none
    | some r1 =>
      let (w, r2) := takeWord r1
      if w.isEmpty then none
      else
        match skipWs1 r2 with
        | none => none
        | some r3 =>
          match matchCI "FROM".data r3 with
          | none => none
          | some r4 =>
            match skipWs1 r4 with
            | none => none
            | some r5 =>
              match lastToSplit r5 0 r5 none with
              | none => none
              | some (s, e) =>
                match lastEndKwSplit "DO".data e 0 none with
                | some k =>
                  some (String.mk w, String.mk s, String.mk (e.take k))
                | none => none

/-- `INPUT\s+(\w+)` at one position → the variable name. -/
def parseInputVarAt (cs : List Char) : Option String :=
  match matchCI "INPUT".data cs with
  | none => none
  | some r =>
    match skipWs1 r with
    | none => none
    | some r2 =>
      let (w, _) := takeWord r2
      if w.isEmpty then none else some (String.mk w)

/-- `INPUT\s+\w+\s+WITH\s+"([^"]+)"` at one position → the prompt text. -/
def parseInputPromptAt (cs : List Char) : Option String :=
  match matchCI "INPUT".data cs with
  | none => none
  | some r =>
    match skipWs1 r with
    | none => none
    | some r2 =>
      let (w, r3) := takeWord r2
      if w.isEmpty then none
      else
        match skipWs1 r3 with
        | none => none
        | some r4 =>
          match matchCI "WITH".data r4 with
          | none => none
          | some r5 =>
            match skipWs1 r5 with
            | none => none
            | some r6 =>
              match r6 with
              | '"' :: r7 =>
                match takeUntil '"' r7 with
                | some (p, _) => if p.isEmpty then none else some (String.mk p)
                | none => none
              | _ => none

/-- `CALL\s+(\w+)\s*\(([^)]*)\)` at one position → (name, argument text). -/
def parseCallAt (cs : List Char) : Option (String × String) :=
  match matchCI "CALL".data cs with
  | none => none
  | some r =>
    match skipWs1 r with
    | none => none
    | some r2 =>
      let (w, r3) := takeWord r2
      if w.isEmpty then none
      else
        match skipWs r3 with
        | '(' :: r4 =>
          match takeUntil ')' r4 with
          | some (args, _) => some (String.mk w, String.mk args)
          | none => none
        | _ => none

/-- `RETURN\s+(.+)` at one position → the returned expression. -/
def parseReturnAt (cs : List Char) : Option String :=
  match matchCI "RETURN".data cs with
  | none => none
  | some r =>
    match skipWs1 r with
    | none => none
    | some r2 => if r2.isEmpty then none else some (String.mk r2)

/-- `(?:FUNCTION|PROCEDURE)\s+(\w+)` at one position → the name. -/
def parseFuncNameAt (cs : List Char) : Option String :=
  let afterKw :=
    match matchCI "FUNCTION".data cs with
    | some r => some r
    | none => matchCI "PROCEDURE".data cs
  match afterKw with
  | none => none
  | some r =>
    match skipWs1 r with
    | none => none
    | some r2 =>
      let (w, _) := takeWord r2
      if w.isEmpty then none else some (String.mk w)

/-- Anchored `^FUNCTION\s+(\w+)\s*\(([^)]*)\)` (and the same for
`PROCEDURE`) → (name, parameter text, block keyword). -/
def parseHeader (kw : String) (line : String) : Option (String × String) :=
  match matchCI kw.data line.data with
  | none => none
  | some r =>
    match skipWs1 r with
    | none => none
    | some r2 =>
      let (w, r3) := takeWord r2
      if w.isEmpty then none
      else
        match skipWs r3 with
        | '(' :: r4 =>
          match takeUntil ')' r4 with
          | some (ps, _) => some (String.mk w, String.mk ps)
          | none => none
        | _ => none

/-- The TS `parseFunctions`: scan every line for `FUNCTION`/`PROCEDURE`
headers; parameters are the comma-separated non-empty trimmed pieces; the
body end comes from the block matcher.  Later definitions of the same name
overwrite earlier ones (a `Map.set`). -/
def parseFunctionsGo (lines : List String) :
    List String → Nat → List (String × FunctionDefinition) →
    List (String × FunctionDefinition)
  | [], _, acc => acc
  | l :: rest, i, acc =>
    let hdr :=
      match parseHeader "FUNCTION" l with
      | some (nm, ps) => some (nm, ps, "FUNCTION")
      | none =>
        match parseHeader "PROCEDURE" l with
        | some (nm, ps) => some (nm, ps, "PROCEDURE")
        | none => none
    let acc' :=
      match hdr with
      | some (nm, ps, bt) =>
        let params := ((splitChar ',' ps).map myTrim).filter (fun p => !p.data.isEmpty)
        envSet acc nm
          { name := nm, params := params, startLine := i,
            endLine := findMatchingEnd lines bt i }
      | none => acc
    parseFunctionsGo lines rest (i + 1) acc'

/-- Build the function table from the tokenized program. -/
def parseFunctions (lines : List String) : List (String × FunctionDefinition) :=
  parseFunctionsGo lines lines 0 []

/-- The constructor's tokenization: split on newlines, trim, drop blanks. -/
def tokenizeProgram (code : String) : List String :=
  ((splitChar '\n' code).map myTrim).filter (fun l => !l.data.isEmpty)

/-- Build an interpreter instance from source text and an input callback. -/
def mkInterp (code : String) (input : String → Option String) : Interp :=
  let lines := tokenizeProgram code
  { lines := lines, functions := parseFunctions lines, input := input }

/-! ## Text substitution passes of the expression/condition evaluators -/

/-- One global word-boundary replacement (`new RegExp("\\b" + name + "\\b",
"g")`): case-sensitive, scanning the original text left to right, the
replacement itself is not rescanned.  `prevW` tracks whether the previous
original character was a word character (the `\b` test). -/
def replaceWordF (name repl : List Char) : Nat → Bool → List Char → List Char
  | 0, _, cs => cs
  | fuel + 1, prevW, cs =>
    match cs with
    | [] => []
    | c :: t =>
      if !prevW then
        match consumeExact name cs with
        | some rest =>
          if (match rest with | [] => true | r :: _ => !wordChar r) then
            repl ++ replaceWordF name repl fuel true rest
          else c :: replaceWordF name repl fuel (wordChar c) t
        | none => c :: replaceWordF name repl fuel (wordChar c) t
      else c :: replaceWordF name repl fuel (wordChar c) t

/-- Global case-sensitive `\bname\b` replacement. -/
def replaceWord (name repl : String) (cs : List Char) : List Char :=
  replaceWordF name.data repl.data (cs.length + 1) false cs

/-- Case-insensitive variant (`gi` flags), used for the word operators of
the condition evaluator. -/
def replaceWordCIF (name repl : List Char) : Nat → Bool → List Char → List Char
  | 0, _, cs => cs
  | fuel + 1, prevW, cs =>
    match cs with
    | [] => []
    | c :: t =>
      if !prevW then
        match matchCI name cs with
        | some rest =>
          if (match rest with | [] => true | r :: _ => !wordChar r) then
            repl ++ replaceWordCIF name repl fuel true rest
          else c :: replaceWordCIF name repl fuel (wordChar c) t
        | none => c :: replaceWordCIF name repl fuel (wordChar c) t
      else c :: replaceWordCIF name repl fuel (wordChar c) t

/-- Global case-insensitive `\bname\b` replacement. -/
def replaceWordCI (name repl : String) (cs : List Char) : List Char :=
  replaceWordCIF name.data repl.data (cs.length + 1) false cs

/-- The TS `evaluateCondition`: normalise the word operators
`AND`/`OR`/`NOT`/`MOD`, substitute every variable by its `String(value)`
form, evaluate; any failure yields `false`; a non-boolean result counts by
its truthiness (callers test the result with `if`). -/
def evaluateCondition (vars : List (String × Value)) (condition : String) : Bool :=
  let c0 := (myTrim condition).data
  let c1 := replaceWordCI "AND" "&&" c0
  let c2 := replaceWordCI "OR" "||" c1
  let c3 := replaceWordCI "NOT" "!" c2
  let c4 := replaceWordCI "MOD" "%" c3
  let p := vars.foldl (fun acc pr => replaceWord pr.1 (jsToString pr.2) acc) c4
  match evalJS (String.mk p) with
  | some v => truthy v
  | none => false

/-- Replacement text used by the expression evaluator's variable
substitution: lists as JSON, strings quoted, everything else `String(v)`. -/
def varReplacement (v : Value) : String :=
  if isArr v then jsonStringify v
  else
    match v with
    | .str s => "\"" ++ s ++ "\""
    | _ => jsToString v

/-- The expression evaluator's variable substitution pass, one entry of the
environment after the other in insertion order. -/
def varSubstAll (vars : List (String × Value)) (cs : List Char) : List Char :=
  vars.foldl (fun acc pr => replaceWord pr.1 (varReplacement pr.2) acc) cs

/-- Resolution of an array index text in the array-access substitution: a
bound variable's value, else `eval`, else the literal text itself. -/
def arrayIndexValue (vars : List (String × Value)) (idxE : String) : Value :=
  match envGet vars idxE with
  | some v => v
  | none =>
    match evalJS idxE with
    | some v => v
    | none => .str idxE

/-- JS element read `array[idx]` for the index values that can arise
(numbers, or strings holding a canonical integer); anything else reads a
non-index property, i.e. `undefined`. -/
def arrayElement (arr : Value) (idx : Value) : Value :=
  match idx with
  | .num n =>
    if 0 ≤ n ∧ n < (vlen arr : Int) then vAt arr n.toNat else .undef
  | .str s =>
    match strToNumber s with
    | some n =>
      if toString n = s ∧ 0 ≤ n ∧ n < (vlen arr : Int) then
        vAt arr n.toNat
      else .undef
    | none => .undef
  | _ => Value.undef

/-- The `exec` loop collecting `(\w+)\[([^\]]+)\]` matches left to right
(non-overlapping); a pair (matched text, element value) is recorded only
when the name is bound to an array. -/
def scanArrayAccess (vars : List (String × Value)) :
    Nat → List Char → List (String × Value)
  | 0, _ => []
  | fuel + 1, cs =>
    match cs with
    | [] => []
    | _ :: t =>
      let attempt : Option (List Char × String × String × List Char) :=
        let (w, r) := takeWord cs
        if w.isEmpty then none
        else
          match r with
          | '[' :: r2 =>
            match takeUntil ']' r2 with
            | some (idx, r3) =>
              if idx.isEmpty then none
              else some (w ++ '[' :: (idx ++ [']']), String.mk w, String.mk idx, r3)
            | none => none
          | _ => none
      match attempt with
      | some (mt, nm, idxS, r3) =>
        match envGet vars nm with
        | some av =>
          if isArr av then
            (String.mk mt, arrayElement av (arrayIndexValue vars idxS)) ::
              scanArrayAccess vars fuel r3
          else scanArrayAccess vars fuel r3
        | none => scanArrayAccess vars fuel r3
      | none => scanArrayAccess vars fuel t

/-- First-occurrence plain-text replacement (`String.prototype.replace` with
a string pattern). -/
def replaceFirstF (pat repl : List Char) : Nat → List Char → List Char
  | 0, cs => cs
  | fuel + 1, cs =>
    match cs with
    | [] => []
    | c :: t =>
      match consumeExact pat cs with
      | some rest => repl ++ rest
      | none => c :: replaceFirstF pat repl fuel t

/-- The array-access substitution pass: collect matches, then replace each
recorded match text by `String(value)`, first occurrence each time. -/
def applyArraySubst (vars : List (String × Value)) (cs : List Char) : List Char :=
  (scanArrayAccess vars (cs.length + 1) cs).foldl
    (fun acc pr => replaceFirstF pr.1.data (jsToString pr.2).data (acc.length + 1) acc)
    cs

/-- `s.slice(1, -1)`. -/
def slice1m1 (s : String) : String :=
  String.mk ((s.data.drop 1).dropLast)

/-- The character loop splitting a mixed string formula on top-level `+`
(outside quotes and parentheses); a `+` pushes the trimmed current piece
even when empty, the final piece only when non-empty. -/
def splitPlusGo : List Char → List Char → Bool → Int → List String → List String
  | [], current, _, _, parts =>
    if myTrim (String.mk current) ≠ "" then parts ++ [myTrim (String.mk current)] else parts
  | c :: rest, current, inString, depth, parts =>
    if c = '"' then splitPlusGo rest (current ++ [c]) (!inString) depth parts
    else if c = '(' ∧ !inString then splitPlusGo rest (current ++ [c]) inString (depth + 1) parts
    else if c = ')' ∧ !inString then splitPlusGo rest (current ++ [c]) inString (depth - 1) parts
    else if c = '+' ∧ !inString ∧ depth = 0 then
      splitPlusGo rest [] inString depth (parts ++ [myTrim (String.mk current)])
    else splitPlusGo rest (current ++ [c]) inString depth parts

/-- String-concatenation evaluation of the split pieces: quoted pieces are
stripped, the rest go through `eval` with the piece itself as fallback. -/
def concatParts : List String → String
  | [] => ""
  | p :: rest =>
    let piece :=
      if strStarts p "\"" && strEnds p "\"" then slice1m1 p
      else
        match evalJS p with
        | some v => jsToString v
        | none => p
    piece ++ concatParts rest

/-- `parseFloat` on the integer fragment of the model: leading whitespace,
optional sign, a digit run (trailing junk ignored as `parseFloat` does);
fractional inputs lie outside the integer value model and coerce to the
string binding. -/
def parseFloatJS (s : String) : Option Int :=
  let cs := skipWs s.data
  let (sign, cs') : Int × List Char :=
    match cs with
    | '-' :: r => (-1, r)
    | '+' :: r => (1, r)
    | r => (1, r)
  let (ds, r) := takeDigits cs'
  if ds.isEmpty then none
  else
    match r with
    | '.' :: _ => none
    | _ => some (sign * (digitsToNat ds : Int))

/-- `variables[name][index] = value` once `name` is bound: only an actual
array with a (canonical) non-negative integer index stores an element;
primitive targets and non-index keys change nothing observable. -/
def arrayStore (vars : List (String × Value)) (nm : String) (idx v : Value) :
    List (String × Value) :=
  match envGet vars nm with
  | some av =>
    if isArr av then
      match idx with
      | .num n => if 0 ≤ n then envSet vars nm (vSetPad av n.toNat v) else vars
      | .str s =>
        match strToNumber s with
        | some n =>
          if toString n = s ∧ 0 ≤ n then envSet vars nm (vSetPad av n.toNat v)
          else vars
        | none => vars
      | _ => vars
    else vars
  | none => vars

/-- `x++` on the loop variable: `ToNumber` then increment, `NaN` on failed
coercion. -/
def incrValue (v : Value) : Value :=
  match toNumberV v with
  | some n => .num (n + 1)
  | none => .nan

/-- Positional parameter binding: missing arguments bind `undefined`,
extra arguments are dropped (the TS loop runs over the parameter list). -/
def paramPairs : List String → List Value → List (String × Value)
  | [], _ => []
  | p :: ps, [] => (p, .undef) :: paramPairs ps []
  | p :: ps, a :: rest => (p, a) :: paramPairs ps rest

/-! ## The step machine

The mutually recursive TS methods (`executeLine`, `evaluateExpression`,
`callFunction`, the call-body loop and the call-substitution loop) are tied
together through a fuel-indexed knot: `machineAt I (n+1)` implements each
method, delegating every recursive call to `machineAt I n`.  Fuel zero
returns `none`, the same constructor that models a thrown exception; any
terminating TS run is reproduced exactly by every sufficiently large
fuel. -/

/-- The five mutually recursive operations of the interpreter. -/
structure Machine where
  exec : ExecutionState → String → Option ExecutionState
  evalE : ExecutionState → String → Option (Value × ExecutionState)
  callF : ExecutionState → String → List Value → Option (Value × ExecutionState)
  callBody : ExecutionState → Nat → Option (Option Value × ExecutionState)
  subst : ExecutionState → String → Option (String × ExecutionState)

/-- The exhausted machine. -/
def machineStop : Machine where
  exec := fun _ _ => none
  evalE := fun _ _ => none
  callF := fun _ _ _ => none
  callBody := fun _ _ => none
  subst := fun _ _ => none

/-- Evaluate a list of expression texts left to right, threading state. -/
def evalListWithGo
    (ev : ExecutionState → String → Option (Value × ExecutionState)) :
    ExecutionState → List String → Option (List Value × ExecutionState)
  | st, [] => some ([], st)
  | st, x :: xs =>
    match ev st x with
    | none => none
    | some (v, st') =>
      match evalListWithGo ev st' xs with
      | none => none
      | some (vs, st'') => some (v :: vs, st'')

/-- One pass of the global `(\w+)\s*\(([^()]*)\)` replacement: at each
match, a built-in (`LENGTH`/`LEN`/`SIZE`, case-insensitive) evaluates its
whole argument text and renders an array's length (else `"0"`); a user
function evaluates the comma-split arguments and calls it; any other name
leaves the match unchanged.  Returns the new text, whether any call was
handled (the `hasFunction` flag) and the threaded state. -/
def replaceCallsW (I : Interp)
    (ev : ExecutionState → String → Option (Value × ExecutionState))
    (cf : ExecutionState → String → List Value → Option (Value × ExecutionState)) :
    Nat → ExecutionState → List Char → Option (List Char × Bool × ExecutionState)
  | 0, _, _ => none
  | fuel + 1, st, cs =>
    match cs with
    | [] => some ([], false, st)
    | c :: t =>
      let attempt : Option (String × String × List Char) :=
        let (w, r) := takeWord cs
        if w.isEmpty then none
        else
          match skipWs r with
          | '(' :: r2 =>
            match takeUntil ')' r2 with
            | some (args, r3) =>
              if args.contains '(' then none
              else some (String.mk w, String.mk args, r3)
            | none => none
          | _ => none
      match attempt with
      | some (fname, argsStr, r3) =>
        let consumed := cs.take (cs.length - r3.length)
        if ["LENGTH", "LEN", "SIZE"].contains (upper fname) then
          match ev st (myTrim argsStr) with
          | none => none
          | some (v, st1) =>
            let repl := if isArr v then toString (vlen v) else "0"
            match replaceCallsW I ev cf fuel st1 r3 with
            | none => none
            | some (restT, _, st2) => some (repl.data ++ restT, true, st2)
        else if (envGet I.functions fname).isSome then
          let argTexts :=
            if argsStr = "" then [] else (splitChar ',' argsStr).map myTrim
          match evalListWithGo ev st argTexts with
          | none => none
          | some (args, st1) =>
            match cf st1 fname args with
            | none => none
            | some (res, st2) =>
              match replaceCallsW I ev cf fuel st2 r3 with
              | none => none
              | some (restT, _, st3) =>
                some ((jsToString res).data ++ restT, true, st3)
        else
          match replaceCallsW I ev cf fuel st r3 with
          | none => none
          | some (restT, flag, st') => some (consumed ++ restT, flag, st')
      | none =>
        match replaceCallsW I ev cf fuel st t with
        | none => none
        | some (restT, flag, st') => some (c :: restT, flag, st')

/-- The two assignment forms share this: an array target evaluates index
then value, seeds a fresh empty array when the name is unbound or falsy and
stores the element; a plain target binds the evaluated value. -/
def assignWith
    (ev : ExecutionState → String → Option (Value × ExecutionState))
    (st : ExecutionState) (target expr : String) : Option ExecutionState :=
  match parseArrayTarget target with
  | some (nm, idxE) =>
    match ev st idxE with
    | none => none
    | some (idx, st1) =>
      match ev st1 expr with
      | none => none
      | some (v, st2) =>
        let vars1 :=
          if isFalsyOpt (envGet st2.variables nm) then
            envSet st2.variables nm .vnil
          else st2.variables
        some { st2 with «variables» := arrayStore vars1 nm idx v }
  | none =>
    match ev st expr with
    | none => none
    | some (v, st1) =>
      some { st1 with «variables» := envSet st1.variables target v }

/-- Pop frames up to and including the first `FUNCTION_CALL`, yielding its
resume line (the branch is unreachable in this version of the code, which
never pushes such frames; popping an absent frame keeps the counter). -/
def popThroughFC : List Frame → Nat → (Nat × List Frame)
  | [], pc => (pc, [])
  | fr :: t, pc =>
    if fr.type = "FUNCTION_CALL" then (fr.returnLine.getD 0, t)
    else popThroughFC t pc

/-- The dispatch-final bookkeeping `if (currentLine >= lines.length)
finished = true` (skipped by the comment and arrow-assignment branches,
which return early in the TS code). -/
def finishUp (I : Interp) (st : ExecutionState) : ExecutionState :=
  if I.lines.length ≤ st.currentLine then { st with finished := true } else st

/-- The `else if` chain of `executeLine` past the comment and
arrow-assignment branches (the branches that fall through to the final
`finished` bookkeeping); `M` supplies the recursive operations. -/
def execChain (I : Interp) (M : Machine) (st : ExecutionState) (line : String) :
    Option ExecutionState :=
  let u := upper line
  if strStarts u "SET " then
    match scanPos parseSetAt line.data with
    | some (target, expr) =>
      match assignWith M.evalE st target expr with
      | none => none
      | some st' => some { st' with currentLine := st'.currentLine + 1 }
    | none => some { st with currentLine := st.currentLine + 1 }
  else if strStarts u "OUTPUT " || strStarts u "PRINT " then
    let kwLen := if strStarts u "OUTPUT " then 7 else 6
    match M.evalE st (myTrim (String.mk (line.data.drop kwLen))) with
    | none => none
    | some (v, st1) =>
      some { st1 with output := st1.output ++ [jsToString v],
                      currentLine := st1.currentLine + 1 }
  else if strStarts u "INPUT " then
    match scanPos parseInputVarAt line.data with
    | none => some { st with currentLine := st.currentLine + 1 }
    | some vn =>
      let prompt :=
        match scanPos parseInputPromptAt line.data with
        | some p => p
        | none => "Enter value for " ++ vn ++ ":"
      let st1 :=
        match I.input prompt with
        | none => st
        | some sVal =>
          let v :=
            match parseFloatJS sVal with
            | some n => Value.num n
            | none => Value.str sVal
          { st with «variables» := envSet st.variables vn v }
      some { st1 with currentLine := st1.currentLine + 1 }
  else if strStarts u "IF " then
    match scanPos (parseHeadTailAt "IF" "THEN") line.data with
    | none => some st
    | some cond =>
      if evaluateCondition st.variables cond then
        some { st with
          callStack :=
            { line := st.currentLine, type := "IF",
              condition := some cond } :: st.callStack,
          currentLine := st.currentLine + 1 }
      else
        some { st with
          currentLine := findMatchingEnd I.lines "IF" st.currentLine + 1 }
  else if u = "END IF" then
    match st.callStack with
    | fr :: t =>
      if fr.type = "IF" then
        some { st with callStack := t, currentLine := st.currentLine + 1 }
      else some { st with currentLine := st.currentLine + 1 }
    | [] => some { st with currentLine := st.currentLine + 1 }
  else if strStarts u "WHILE " then
    match scanPos (parseHeadTailAt "WHILE" "DO") line.data with
    | none => some st
    | some cond =>
      let existing := (st.callStack.reverse).find?
        (fun b => b.line == st.currentLine && b.type == "WHILE")
      if evaluateCondition st.variables cond then
        if existing.isSome then
          some { st with currentLine := st.currentLine + 1 }
        else
          some { st with
            callStack :=
              { line := st.currentLine, type := "WHILE",
                condition := some cond } :: st.callStack,
            currentLine := st.currentLine + 1 }
      else
        let stk := if existing.isSome then st.callStack.tail else st.callStack
        some { st with callStack := stk,
                       currentLine := findMatchingEnd I.lines "WHILE" st.currentLine + 1 }
  else if u = "END WHILE" then
    match st.callStack with
    | fr :: _ =>
      if fr.type = "WHILE" then some { st with currentLine := fr.line }
      else some { st with currentLine := st.currentLine + 1 }
    | [] => some { st with currentLine := st.currentLine + 1 }
  else if strStarts u "FOR " then
    let pf :=
      match scanPos parseForArrowAt line.data with
      | some r => some r
      | none => scanPos parseForFromAt line.data
    match pf with
    | none => some st
    | some (v, sE, eE) =>
      let existing := (st.callStack.reverse).find?
        (fun b => b.line == st.currentLine && b.type == "FOR")
      match existing with
      | none =>
        match M.evalE st sE with
        | none => none
        | some (sv, st1) =>
          match M.evalE st1 eE with
          | none => none
          | some (endv, st2) =>
            some { st2 with
              «variables» := envSet st2.variables v sv,
              callStack :=
                { line := st2.currentLine, type := "FOR",
                  loopVar := some v, loopEnd := some endv } :: st2.callStack,
              currentLine := st2.currentLine + 1 }
      | some fr =>
        let cur := (envGet st.variables (fr.loopVar.getD "")).getD .undef
        if truthy (jsRel "<=" cur (fr.loopEnd.getD .undef)) then
          some { st with currentLine := st.currentLine + 1 }
        else
          some { st with callStack := st.callStack.tail,
                         currentLine := findMatchingEnd I.lines "FOR" st.currentLine + 1 }
  else if u = "END FOR" || strStarts u "NEXT " then
    match st.callStack with
    | fr :: _ =>
      if fr.type = "FOR" then
        let lv := fr.loopVar.getD ""
        let cur := (envGet st.variables lv).getD .undef
        some { st with «variables» := envSet st.variables lv (incrValue cur),
                       currentLine := fr.line }
      else some { st with currentLine := st.currentLine + 1 }
    | [] => some { st with currentLine := st.currentLine + 1 }
  else if strStarts u "FUNCTION " || strStarts u "PROCEDURE " then
    match scanPos parseFuncNameAt line.data with
    | some nm =>
      match envGet I.functions nm with
      | some fd => some { st with currentLine := fd.endLine + 1 }
      | none => some { st with currentLine := st.currentLine + 1 }
    | none => some { st with currentLine := st.currentLine + 1 }
  else if u = "ENDFUNCTION" || u = "END FUNCTION" || u = "ENDPROCEDURE"
      || u = "END PROCEDURE" then
    some { st with currentLine := st.currentLine + 1 }
  else if strStarts u "CALL " then
    match scanPos parseCallAt line.data with
    | some (nm, argsStr) =>
      let argTexts :=
        if argsStr = "" then [] else (splitChar ',' argsStr).map myTrim
      match evalListWithGo M.evalE st argTexts with
      | none => none
      | some (args, st1) =>
        match M.callF st1 nm args with
        | none => none
        | some (_, st2) => some { st2 with currentLine := st2.currentLine + 1 }
    | none => some { st with currentLine := st.currentLine + 1 }
  else if strStarts u "RETURN" then
    let evRes : Option (Option Value × ExecutionState) :=
      match scanPos parseReturnAt line.data with
      | some e =>
        match M.evalE st e with
        | none => none
        | some (v, st1) => some (some v, st1)
      | none => some (none, st)
    match evRes with
    | none => none
    | some (rv, st1) =>
      match st1.callStack.find? (fun b => b.type == "FUNCTION_CALL") with
      | some fr =>
        let savedVars := fr.savedVariables.getD []
        let vars' :=
          match rv with
          | some v => envSet savedVars "__return__" v
          | none => savedVars
        let pr := popThroughFC st1.callStack st1.currentLine
        some { st1 with «variables» := vars', callStack := pr.2,
                        currentLine := pr.1 }
      | none => some { st1 with currentLine := st1.currentLine + 1 }
  else if u = "ELSE" then
    let src :=
      match st.callStack with
      | fr :: _ => if fr.line = 0 then st.currentLine else fr.line
      | [] => st.currentLine
    some { st with currentLine := findMatchingEnd I.lines "IF" src + 1 }
  else if u = "ENDIF" then
    match st.callStack with
    | fr :: t =>
      if fr.type = "IF" then
        some { st with callStack := t, currentLine := st.currentLine + 1 }
      else some { st with currentLine := st.currentLine + 1 }
    | [] => some { st with currentLine := st.currentLine + 1 }
  else some { st with currentLine := st.currentLine + 1 }

/-- One fuel layer of the interpreter: each TS method implemented with its
recursive calls delegated to the predecessor machine `M`.

`exec` is `executeLine`: the statement dispatcher.  Branch order,
early returns and the per-branch program-counter updates mirror the TS
`if`/`else if` chain exactly; an `IF`/`WHILE`/`FOR` keyword line whose
remainder fails its pattern falls through the whole chain without touching
the state (the TS branch body is guarded by `if (match)` with no `else`).

`evalE` is `evaluateExpression`; `callF` is `callFunction`; `callBody` is
`callFunction`'s statement loop; `subst` is the `while (hasFunction)`
call-substitution loop. -/
def machineStep (I : Interp) (M : Machine) : Machine where
  subst := fun st e =>
    match replaceCallsW I M.evalE M.callF (e.data.length + 1) st e.data with
    | none => none
    | some (txt, flag, st') =>
      if flag then M.subst st' (String.mk txt) else some (String.mk txt, st')
  evalE := fun st e =>
    let expr := myTrim e
    if strStarts expr "\"" && strEnds expr "\"" then some (.str (slice1m1 expr), st)
    else if strStarts expr "[" && strEnds expr "]" then
      match evalListWithGo M.evalE st ((splitChar ',' (slice1m1 expr)).map myTrim) with
      | none => none
      | some (vs, st') => some (vlist vs, st')
    else
      match M.subst st expr with
      | none => none
      | some (t1, st1) =>
        let t2 := applyArraySubst st1.variables t1.data
        let t3 := varSubstAll st1.variables t2
        let p := String.mk t3
        if strContains p '+' && strContains p '"' then
          some (.str (concatParts (splitPlusGo t3 [] false 0 [])), st1)
        else
          match evalJS p with
          | some v => some (v, st1)
          | none => some (.str p, st1)
  callF := fun st nm args =>
    match envGet I.functions nm with
    | none => some (.undef, st)
    | some fd =>
      let saved := st.variables
      let savedLine := st.currentLine
      let savedStack := st.callStack
      let newVars := (paramPairs fd.params args).foldl (fun env pr => envSet env pr.1 pr.2) []
      let st1 : ExecutionState :=
        { st with «variables» := newVars, callStack := [], currentLine := fd.startLine + 1 }
      match M.callBody st1 fd.endLine with
      | none => none
      | some (rv, st2) =>
        some (rv.getD .undef,
          { st2 with «variables» := saved, currentLine := savedLine,
                     callStack := savedStack })
  callBody := fun st endLine =>
    if st.currentLine ≤ endLine then
      match I.lines.get? st.currentLine with
      | none => none
      | some line =>
        let u := upper line
        if strStarts u "RETURN" then
          match scanPos parseReturnAt line.data with
          | some e =>
            match M.evalE st e with
            | none => none
            | some (v, st') => some (some v, st')
          | none => some (none, st)
        else if u = "ENDFUNCTION" || u = "END FUNCTION" || u = "ENDPROCEDURE"
            || u = "END PROCEDURE" then
          some (none, st)
        else
          match M.exec st line with
          | none => none
          | some st' => M.callBody st' endLine
    else some (none, st)
  exec := fun st line =>
    if strStarts (myTrim line) "#" || strStarts (myTrim line) "//" then
      some { st with currentLine := st.currentLine + 1 }
    else
      match parseArrowAssign line with
      | some (target, expr) =>
        match assignWith M.evalE st target expr with
        | none => none
        | some st' => some { st' with currentLine := st'.currentLine + 1 }
      | none =>
        match execChain I M st line with
        | none => none
        | some st' => some (finishUp I st')

/-- The machine at a given fuel. -/
def machineAt (I : Interp) : Nat → Machine
  | 0 => machineStop
  | fuel + 1 => machineStep I (machineAt I fuel)

/-- The TS `executeLine` at a given fuel. -/
def executeLine (I : Interp) (fuel : Nat) : ExecutionState → String → Option ExecutionState :=
  (machineAt I fuel).exec

/-- The TS `evaluateExpression` at a given fuel. -/
def evaluateExpression (I : Interp) (fuel : Nat) :
    ExecutionState → String → Option (Value × ExecutionState) :=
  (machineAt I fuel).evalE

/-- The TS `callFunction` at a given fuel. -/
def callFunction (I : Interp) (fuel : Nat) :
    ExecutionState → String → List Value → Option (Value × ExecutionState) :=
  (machineAt I fuel).callF

/-- The TS `step()`: on a finished engine or an exhausted counter, set the
finished flag and return the state unchanged (the snapshot); otherwise
execute the current line. -/
def stepF (I : Interp) (fuel : Nat) (st : ExecutionState) : Option ExecutionState :=
  if st.finished ∨ I.lines.length ≤ st.currentLine then some { st with finished := true }
  else
    match I.lines.get? st.currentLine with
    | none => none
    | some line => (machineAt I fuel).exec st line

/-- The state the constructor builds. -/
def initState : ExecutionState :=
  { «variables» := [], currentLine := 0, finished := false, callStack := [], output := [] }

/-- Iterate `step()`. -/
def runSteps (I : Interp) (fuel : Nat) : Nat → ExecutionState → Option ExecutionState
  | 0, st => some st
  | n + 1, st =>
    match stepF I fuel st with
    | none => none
    | some st' => runSteps I fuel n st'

/-! ## Concrete programs used by the claims -/

/-- No input is ever provided in these programs. -/
def noInput : String → Option String := fun _ => none

/-- `IF … THEN … ELSE … ENDIF` with a true condition, the `IF` on line 1. -/
def ifTrueProg : Interp :=
  mkInterp "SET a TO 0\nIF 1<2 THEN\nSET a TO 1\nELSE\nSET a TO 2\nENDIF" noInput

/-- The same block with a false condition. -/
def ifFalseProg : Interp :=
  mkInterp "SET a TO 0\nIF 1>2 THEN\nSET a TO 1\nELSE\nSET a TO 2\nENDIF" noInput

/-- A lone `IF` line whose remainder has no `THEN`. -/
def badIfProg : Interp := mkInterp "IF x" noInput

/-- A lone unterminated `IF` statement. -/
def unterminatedIfProg : Interp := mkInterp "IF 1>2 THEN" noInput

/-- `FOR i ← 1 TO 3` with an `OUTPUT` body recording each iteration. -/
def forProg : Interp := mkInterp "FOR i ← 1 TO 3\nOUTPUT i\nNEXT i" noInput

/-- `FOR i ← 5 TO 3`: start strictly greater than end. -/
def forDownProg : Interp := mkInterp "FOR i ← 5 TO 3\nOUTPUT i\nNEXT i" noInput

/-- The recursive factorial with the `IF` block written across lines, plus
a caller environment binding. -/
def factProg : Interp :=
  mkInterp
    "FUNCTION fact(n)\nIF n<=1 THEN\nRETURN 1\nELSE\nRETURN n*fact(n-1)\nENDIF\nENDFUNCTION\nSET a TO 7\nSET r TO fact(5)"
    noInput

/-- The factorial with the whole `IF … ENDIF` on one program line, exactly
as the claim's `/`-separated program reads. -/
def factOneLineProg : Interp :=
  mkInterp
    "FUNCTION fact(n)\nIF n<=1 THEN RETURN 1 ELSE RETURN n*fact(n-1) ENDIF\nENDFUNCTION\nSET r TO fact(5)"
    noInput

/-- An empty program (used to evaluate bare expressions). -/
def emptyProg : Interp := mkInterp "" noInput

/-- A state of the empty program binding `x = 5`. -/
def xFiveState : ExecutionState :=
  { initState with «variables» := [("x", Value.num 5)] }


/-- A one-line arrow assignment to an index of an unbound array name. -/
def arrSeedProg : Interp := mkInterp "xs[2] \u2190 7" noInput

/-- The same seeding through the `SET \u2026 TO` form. -/
def arrSeedSetProg : Interp := mkInterp "SET ys[0] TO 1" noInput

/-! ## State-preservation and counter-bound invariants

`callFunction` saves and restores the variables, counter and stack, so
every expression evaluation preserves that triple; the dispatcher itself
keeps the counter within `[0, lineCount + 1]` and only ever stacks frames
opened at real program lines.  These lemmas back the amended counter
invariant (claim C4) and the array-assignment description (C10). -/

/-- The parts of the state that expression evaluation preserves (function
calls save and restore them; output and the finished flag may change). -/
def sameCore (a b : ExecutionState) : Prop :=
  a.variables = b.variables ∧ a.currentLine = b.currentLine ∧ a.callStack = b.callStack

/-- Every frame opens at a real program line, and no `FUNCTION_CALL` frame
exists (this version of the interpreter never pushes one). -/
def stackOK (I : Interp) (st : ExecutionState) : Prop :=
  ∀ fr ∈ st.callStack, fr.line < I.lines.length ∧ fr.type ≠ "FUNCTION_CALL"

/-- Every function-table entry ends within the program (as `parseFunctions`
guarantees through the block matcher). -/
def funcsOK (I : Interp) : Prop :=
  ∀ nm fd, envGet I.functions nm = some fd → fd.endLine ≤ I.lines.length

theorem sameCore_refl (a : ExecutionState) : sameCore a a := ⟨rfl, rfl, rfl⟩

theorem sameCore_trans {a b c : ExecutionState}
    (h1 : sameCore a b) (h2 : sameCore b c) : sameCore a c :=
  ⟨h1.1.trans h2.1, h1.2.1.trans h2.2.1, h1.2.2.trans h2.2.2⟩

theorem fmeGo_le (bt : String) (total : Nat) :
    ∀ (rest : List String) (i depth : Nat), i + rest.length ≤ total →
      fmeGo bt total rest i depth ≤ total := by
  intro rest
  induction rest with
  | nil => intro i d _; simp [fmeGo]
  | cons l t ih =>
    intro i d h
    simp only [List.length_cons] at h
    simp only [fmeGo]
    split
    · exact ih (i + 1) (d + 1) (by omega)
    · split
      · split
        · omega
        · exact ih (i + 1) (d - 1) (by omega)
      · split
        · omega
        · exact ih (i + 1) d (by omega)

/-- The block matcher never points past the line count. -/
theorem findMatchingEnd_le (lines : List String) (bt : String) (s : Nat) :
    findMatchingEnd lines bt s ≤ lines.length := by
  unfold findMatchingEnd
  by_cases h : s + 1 ≤ lines.length
  · exact fmeGo_le bt lines.length _ (s + 1) 1 (by rw [List.length_drop]; omega)
  · rw [List.drop_eq_nil_of_le (by omega)]
    simp [fmeGo]

theorem finishUp_currentLine (I : Interp) (st : ExecutionState) :
    (finishUp I st).currentLine = st.currentLine := by
  unfold finishUp; split <;> rfl

theorem finishUp_callStack (I : Interp) (st : ExecutionState) :
    (finishUp I st).callStack = st.callStack := by
  unfold finishUp; split <;> rfl

theorem evalListWithGo_core
    (ev : ExecutionState → String → Option (Value × ExecutionState))
    (hev : ∀ st e out, ev st e = some out → sameCore out.2 st) :
    ∀ (xs : List String) (st : ExecutionState) (out : List Value × ExecutionState),
      evalListWithGo ev st xs = some out → sameCore out.2 st := by
  intro xs
  induction xs with
  | nil =>
    intro st out h
    simp only [evalListWithGo] at h
    cases h
    exact sameCore_refl st
  | cons x t ih =>
    intro st out h
    simp only [evalListWithGo] at h
    split at h
    · exact absurd h (by simp)
    · rename_i v st1 heq
      split at h
      · exact absurd h (by simp)
      · rename_i vs st2 heq2
        cases h
        exact sameCore_trans (ih st1 (vs, st2) heq2) (hev st x (v, st1) heq)

theorem replaceCallsW_core (I : Interp)
    (ev : ExecutionState → String → Option (Value × ExecutionState))
    (cf : ExecutionState → String → List Value → Option (Value × ExecutionState))
    (hev : ∀ st e out, ev st e = some out → sameCore out.2 st)
    (hcf : ∀ st nm args out, cf st nm args = some out → sameCore out.2 st) :
    ∀ (fuel : Nat) (st : ExecutionState) (cs : List Char)
      (out : List Char × Bool × ExecutionState),
      replaceCallsW I ev cf fuel st cs = some out → sameCore out.2.2 st := by
  intro fuel
  induction fuel with
  | zero => intro st cs out h; exact absurd h (by simp [replaceCallsW])
  | succ n ih =>
    intro st cs out h
    simp only [replaceCallsW] at h
    split at h
    · cases h; exact sameCore_refl st
    · split at h
      · split at h
        · split at h
          · exact absurd h (by simp)
          · rename_i v st1 heq
            split at h
            · exact absurd h (by simp)
            · rename_i restT flag st2 heq2
              cases h
              exact sameCore_trans (ih st1 _ (restT, flag, st2) heq2)
                (hev st _ (v, st1) heq)
        · split at h
          · split at h
            · exact absurd h (by simp)
            · rename_i args st1 heq
              split at h
              · exact absurd h (by simp)
              · rename_i res st2 heq2
                split at h
                · exact absurd h (by simp)
                · rename_i restT flag st3 heq3
                  cases h
                  exact sameCore_trans (ih st2 _ (restT, flag, st3) heq3)
                    (sameCore_trans (hcf st1 _ _ (res, st2) heq2)
                      (evalListWithGo_core ev hev _ st (args, st1) heq))
          · split at h
            · exact absurd h (by simp)
            · rename_i restT flag st1 heq
              cases h
              exact ih st _ (restT, flag, st1) heq
      · split at h
        · exact absurd h (by simp)
        · rename_i restT flag st1 heq
          cases h
          exact ih st _ (restT, flag, st1) heq

theorem assignWith_state
    (ev : ExecutionState → String → Option (Value × ExecutionState))
    (hev : ∀ st e out, ev st e = some out → sameCore out.2 st) :
    ∀ (st : ExecutionState) (t e : String) (st' : ExecutionState),
      assignWith ev st t e = some st' →
      st'.currentLine = st.currentLine ∧ st'.callStack = st.callStack := by
  intro st t e st' h
  unfold assignWith at h
  split at h
  · split at h
    · exact absurd h (by simp)
    · rename_i idx st1 heq
      split at h
      · exact absurd h (by simp)
      · rename_i v st2 heq2
        cases h
        have c1 := hev st _ (idx, st1) heq
        have c2 := hev st1 _ (v, st2) heq2
        exact ⟨c2.2.1.trans c1.2.1, c2.2.2.trans c1.2.2⟩
  · split at h
    · exact absurd h (by simp)
    · rename_i v st1 heq
      cases h
      have c1 := hev st _ (v, st1) heq
      exact ⟨c1.2.1, c1.2.2⟩

/-- Under the stack invariant, the `RETURN` handler finds no
`FUNCTION_CALL` frame. -/
theorem find_fc_none {I : Interp} {st : ExecutionState} (h : stackOK I st) :
    st.callStack.find? (fun b => b.type == "FUNCTION_CALL") = none := by
  rw [List.find?_eq_none]
  intro fr hm
  have := (h fr hm).2
  simp [this]

/-- Popping the top frame preserves the stack invariant. -/
theorem stackOK_tail {I : Interp} {st : ExecutionState} (h : stackOK I st) :
    ∀ f ∈ st.callStack.tail, f.line < I.lines.length ∧ f.type ≠ "FUNCTION_CALL" :=
  fun f hm => h f (List.mem_of_mem_tail hm)

set_option maxHeartbeats 2000000 in
/-- Every dispatcher branch past the comment/arrow ones keeps the frame
stack invariant and the counter within `lineCount + 1`, given that the
recursive operations preserve the saved core (variables, counter, stack)
and the function table is in bounds. -/
theorem execChain_ok (I : Interp) (M : Machine)
    (hF : funcsOK I)
    (hev : ∀ st e out, M.evalE st e = some out → sameCore out.2 st)
    (hcf : ∀ st nm args out, M.callF st nm args = some out → sameCore out.2 st) :
    ∀ (st : ExecutionState) (line : String) (stc : ExecutionState),
      st.currentLine < I.lines.length → stackOK I st →
      execChain I M st line = some stc →
      stackOK I stc ∧ stc.currentLine ≤ I.lines.length + 1 := by
  intro st line stc hpc hstk h
  simp only [execChain] at h
  cases hb1 : strStarts (upper line) "SET "
  rotate_left
  ·
    rw [hb1, if_pos rfl] at h
    split at h
    · split at h
      · exact absurd h (by simp)
      · rename_i st1 heq
        cases h
        have hs := assignWith_state M.evalE hev st _ _ st1 heq
        obtain ⟨hspc, hsst⟩ := hs
        refine ⟨?_, by (try dsimp only); omega⟩
        intro f hm
        rw [hsst] at hm
        exact hstk f hm
    · cases h
      exact ⟨hstk, by (try dsimp only); omega⟩
  rw [hb1, if_neg Bool.false_ne_true] at h
  cases hb2 : (strStarts (upper line) "OUTPUT " || strStarts (upper line) "PRINT ")
  rotate_left
  ·
    rw [hb2, if_pos rfl] at h
    split at h
    · exact absurd h (by simp)
    · rename_i v st1 heq
      cases h
      have hc := hev st _ (v, st1) heq
      have hcpc : st1.currentLine = st.currentLine := hc.2.1
      refine ⟨?_, ?_⟩
      · intro f hm
        rw [hc.2.2] at hm
        exact hstk f hm
      · dsimp only; omega
  rw [hb2, if_neg Bool.false_ne_true] at h
  cases hb3 : strStarts (upper line) "INPUT "
  rotate_left
  ·
    rw [hb3, if_pos rfl] at h
    split at h
    · cases h
      exact ⟨hstk, by (try dsimp only); omega⟩
    · split at h
      · cases h
        exact ⟨hstk, by (try dsimp only); omega⟩
      · cases h
        exact ⟨hstk, by (try dsimp only); omega⟩
  rw [hb3, if_neg Bool.false_ne_true] at h
  cases hb4 : strStarts (upper line) "IF "
  rotate_left
  ·
    rw [hb4, if_pos rfl] at h
    split at h
    · cases h
      exact ⟨hstk, by (try dsimp only); omega⟩
    · split at h
      · cases h
        refine ⟨?_, by (try dsimp only); omega⟩
        intro f hm
        rcases List.mem_cons.mp hm with rfl | hm
        · exact ⟨hpc, by dsimp only; decide⟩
        · exact hstk f hm
      · cases h
        have := findMatchingEnd_le I.lines "IF" st.currentLine
        exact ⟨hstk, by (try dsimp only); omega⟩
  rw [hb4, if_neg Bool.false_ne_true] at h
  by_cases hb5 : upper line = "END IF"
  ·
    rw [if_pos hb5] at h
    split at h
    · rename_i fr t heq
      split at h
      · cases h
        refine ⟨?_, by (try dsimp only); omega⟩
        intro f hm
        exact hstk f (by rw [heq]; exact List.mem_cons_of_mem _ hm)
      · cases h
        exact ⟨hstk, by (try dsimp only); omega⟩
    · cases h
      exact ⟨hstk, by (try dsimp only); omega⟩
  rw [if_neg hb5] at h
  cases hb6 : strStarts (upper line) "WHILE "
  rotate_left
  ·
    rw [hb6, if_pos rfl] at h
    split at h
    · cases h
      exact ⟨hstk, by (try dsimp only); omega⟩
    · split at h
      · split at h
        · cases h
          exact ⟨hstk, by (try dsimp only); omega⟩
        · cases h
          refine ⟨?_, by (try dsimp only); omega⟩
          intro f hm
          rcases List.mem_cons.mp hm with rfl | hm
          · exact ⟨hpc, by dsimp only; decide⟩
          · exact hstk f hm
      · cases h
        have := findMatchingEnd_le I.lines "WHILE" st.currentLine
        refine ⟨?_, by (try dsimp only); omega⟩
        intro f hm
        revert hm
        split
        · intro hm; exact stackOK_tail hstk f hm
        · intro hm; exact hstk f hm
  rw [hb6, if_neg Bool.false_ne_true] at h
  by_cases hb7 : upper line = "END WHILE"
  ·
    rw [if_pos hb7] at h
    split at h
    · rename_i fr t heq
      split at h
      · cases h
        have hfr := (hstk fr (by rw [heq]; exact List.mem_cons_self _ _)).1
        exact ⟨hstk, by (try dsimp only); omega⟩
      · cases h
        exact ⟨hstk, by (try dsimp only); omega⟩
    · cases h
      exact ⟨hstk, by (try dsimp only); omega⟩
  rw [if_neg hb7] at h
  cases hb8 : strStarts (upper line) "FOR "
  rotate_left
  ·
    rw [hb8, if_pos rfl] at h
    split at h
    · cases h
      exact ⟨hstk, by (try dsimp only); omega⟩
    · split at h
      · split at h
        · exact absurd h (by simp)
        · rename_i sv st1 heq1
          split at h
          · exact absurd h (by simp)
          · rename_i endv st2 heq2
            cases h
            have c1 := hev st _ (sv, st1) heq1
            have c2 := hev st1 _ (endv, st2) heq2
            have hpc2 : st2.currentLine = st.currentLine := c2.2.1.trans c1.2.1
            have hsk2 : st2.callStack = st.callStack := c2.2.2.trans c1.2.2
            refine ⟨?_, by (try dsimp only); omega⟩
            intro f hm
            rw [hsk2] at hm
            rcases List.mem_cons.mp hm with rfl | hm
            · exact ⟨by dsimp only; rw [hpc2]; exact hpc, by dsimp only; decide⟩
            · exact hstk f hm
      · split at h
        · cases h
          exact ⟨hstk, by (try dsimp only); omega⟩
        · cases h
          have := findMatchingEnd_le I.lines "FOR" st.currentLine
          exact ⟨stackOK_tail hstk, by (try dsimp only); omega⟩
  rw [hb8, if_neg Bool.false_ne_true] at h
  cases hb9 : (decide (upper line = "END FOR") || strStarts (upper line) "NEXT ")
  rotate_left
  ·
    rw [hb9, if_pos rfl] at h
    split at h
    · rename_i fr t heq
      split at h
      · cases h
        have hfr := (hstk fr (by rw [heq]; exact List.mem_cons_self _ _)).1
        exact ⟨hstk, by (try dsimp only); omega⟩
      · cases h
        exact ⟨hstk, by (try dsimp only); omega⟩
    · cases h
      exact ⟨hstk, by (try dsimp only); omega⟩
  rw [hb9, if_neg Bool.false_ne_true] at h
  cases hb10 : (strStarts (upper line) "FUNCTION " || strStarts (upper line) "PROCEDURE ")
  rotate_left
  ·
    rw [hb10, if_pos rfl] at h
    split at h
    · split at h
      · rename_i fd heq
        cases h
        have := hF _ _ heq
        exact ⟨hstk, by (try dsimp only); omega⟩
      · cases h
        exact ⟨hstk, by (try dsimp only); omega⟩
    · cases h
      exact ⟨hstk, by (try dsimp only); omega⟩
  rw [hb10, if_neg Bool.false_ne_true] at h
  cases hb11 : (decide (upper line = "ENDFUNCTION") || decide (upper line = "END FUNCTION")
      || decide (upper line = "ENDPROCEDURE") || decide (upper line = "END PROCEDURE"))
  rotate_left
  ·
    rw [hb11, if_pos rfl] at h
    cases h
    exact ⟨hstk, by (try dsimp only); omega⟩
  rw [hb11, if_neg Bool.false_ne_true] at h
  cases hb12 : strStarts (upper line) "CALL "
  rotate_left
  ·
    rw [hb12, if_pos rfl] at h
    split at h
    · split at h
      · exact absurd h (by simp)
      · rename_i args st1 heq1
        split at h
        · exact absurd h (by simp)
        · rename_i res st2 heq2
          cases h
          have c1 := evalListWithGo_core M.evalE hev _ st (args, st1) heq1
          have c2 := hcf st1 _ _ (res, st2) heq2
          have hpc2 : st2.currentLine = st.currentLine := c2.2.1.trans c1.2.1
          have hsk2 : st2.callStack = st.callStack := c2.2.2.trans c1.2.2
          refine ⟨?_, by (try dsimp only); omega⟩
          intro f hm
          rw [hsk2] at hm
          exact hstk f hm
    · cases h
      exact ⟨hstk, by (try dsimp only); omega⟩
  rw [hb12, if_neg Bool.false_ne_true] at h
  cases hb13 : strStarts (upper line) "RETURN"
  rotate_left
  ·
    rw [hb13, if_pos rfl] at h
    split at h
    · exact absurd h (by simp)
    · rename_i rv st1 heqres
      have hc1 : sameCore st1 st := by
        revert heqres
        split
        · rename_i e1 heqp
          split
          · intro hfalse; exact absurd hfalse (by simp)
          · rename_i v st2 heqe
            intro hsome
            injection hsome with hsome
            injection hsome with h1 h2
            subst h2
            exact hev st _ (v, st2) heqe
        · intro hsome
          injection hsome with hsome
          injection hsome with h1 h2
          subst h2
          exact sameCore_refl st
      split at h
      · rename_i fr heqf
        have hnone : st1.callStack.find? (fun b => b.type == "FUNCTION_CALL") = none := by
          rw [hc1.2.2]
          exact find_fc_none hstk
        rw [hnone] at heqf
        exact absurd heqf (by simp)
      · cases h
        have hc1pc : st1.currentLine = st.currentLine := hc1.2.1
        refine ⟨?_, ?_⟩
        · intro f hm
          rw [hc1.2.2] at hm
          exact hstk f hm
        · dsimp only; omega
  rw [hb13, if_neg Bool.false_ne_true] at h
  by_cases hb14 : upper line = "ELSE"
  ·
    rw [if_pos hb14] at h
    cases h
    have := findMatchingEnd_le I.lines "IF"
      (match st.callStack with
       | fr :: _ => if fr.line = 0 then st.currentLine else fr.line
       | [] => st.currentLine)
    exact ⟨hstk, by (try dsimp only); omega⟩
  rw [if_neg hb14] at h
  by_cases hb15 : upper line = "ENDIF"
  ·
    rw [if_pos hb15] at h
    split at h
    · rename_i fr t heq
      split at h
      · cases h
        refine ⟨?_, by (try dsimp only); omega⟩
        intro f hm
        exact hstk f (by rw [heq]; exact List.mem_cons_of_mem _ hm)
      · cases h
        exact ⟨hstk, by (try dsimp only); omega⟩
    · cases h
      exact ⟨hstk, by (try dsimp only); omega⟩
  rw [if_neg hb15] at h
  cases h
  exact ⟨hstk, by (try dsimp only); omega⟩


/-- The recursive operations preserve, at every fuel: expression
evaluation and call substitution keep the variables/counter/stack core
(`callFunction` saves and restores it around the body), a function call
restores it by construction, and a dispatched line keeps the frame-stack
invariant with the counter within `lineCount + 1`. -/
theorem machinePreserve (I : Interp) (hF : funcsOK I) :
    ∀ fuel : Nat,
      (∀ st e out, (machineAt I fuel).evalE st e = some out → sameCore out.2 st) ∧
      (∀ st e out, (machineAt I fuel).subst st e = some out → sameCore out.2 st) ∧
      (∀ st nm args out,
        (machineAt I fuel).callF st nm args = some out → sameCore out.2 st) ∧
      (∀ st line st2, st.currentLine < I.lines.length → stackOK I st →
        (machineAt I fuel).exec st line = some st2 →
        stackOK I st2 ∧ st2.currentLine ≤ I.lines.length + 1) := by
  intro fuel
  induction fuel with
  | zero =>
    refine ⟨?_, ?_, ?_, ?_⟩
    · intro st e out h; exact absurd h (by simp [machineAt, machineStop])
    · intro st e out h; exact absurd h (by simp [machineAt, machineStop])
    · intro st nm args out h; exact absurd h (by simp [machineAt, machineStop])
    · intro st line st2 _ _ h; exact absurd h (by simp [machineAt, machineStop])
  | succ n ih =>
    obtain ⟨ihE, ihS, ihC, ihX⟩ := ih
    refine ⟨?_, ?_, ?_, ?_⟩
    · intro st e out h
      simp only [machineAt, machineStep] at h
      split at h
      · cases h; exact sameCore_refl st
      · split at h
        · split at h
          · exact absurd h (by simp)
          · rename_i vs st' heq
            cases h
            exact evalListWithGo_core _ ihE _ st (vs, st') heq
        · split at h
          · exact absurd h (by simp)
          · rename_i t1 st1 heq
            have hc := ihS st _ (t1, st1) heq
            split at h
            · cases h; exact hc
            · split at h
              · cases h; exact hc
              · cases h; exact hc
    · intro st e out h
      simp only [machineAt, machineStep] at h
      split at h
      · exact absurd h (by simp)
      · rename_i txt flag st' heq
        have hc := replaceCallsW_core I _ _ ihE ihC _ st e.data (txt, flag, st') heq
        split at h
        · exact sameCore_trans (ihS st' _ out h) hc
        · cases h; exact hc
    · intro st nm args out h
      simp only [machineAt, machineStep] at h
      split at h
      · cases h; exact sameCore_refl st
      · rename_i fd heq
        split at h
        · exact absurd h (by simp)
        · rename_i rv st2 heq2
          cases h
          exact ⟨rfl, rfl, rfl⟩
    · intro st line st2 hpc hstk h
      simp only [machineAt, machineStep] at h
      split at h
      · cases h
        exact ⟨fun f hm => hstk f hm, by (try dsimp only); omega⟩
      · split at h
        · split at h
          · exact absurd h (by simp)
          · rename_i st1 heq
            cases h
            obtain ⟨hA, hB⟩ := assignWith_state _ ihE st _ _ st1 heq
            refine ⟨?_, by (try dsimp only); omega⟩
            intro f hm
            rw [show ({ st1 with currentLine := st1.currentLine + 1 } :
                ExecutionState).callStack = st1.callStack from rfl, hB] at hm
            exact hstk f hm
        · split at h
          · exact absurd h (by simp)
          · rename_i st' heq
            cases h
            have hok := execChain_ok I (machineAt I n) hF ihE ihC st line st' hpc hstk heq
            constructor
            · intro f hm
              rw [finishUp_callStack] at hm
              exact hok.1 f hm
            · rw [finishUp_currentLine]
              exact hok.2

/-- One `step()` keeps the stack invariant and the `lineCount + 1`
counter bound. -/
theorem stepF_ok (I : Interp) (fuel : Nat) (hF : funcsOK I)
    (st st2 : ExecutionState) (hstk : stackOK I st)
    (hle : st.currentLine ≤ I.lines.length + 1)
    (h : stepF I fuel st = some st2) :
    stackOK I st2 ∧ st2.currentLine ≤ I.lines.length + 1 := by
  unfold stepF at h
  split at h
  · cases h
    exact ⟨fun f hm => hstk f hm, hle⟩
  · rename_i hg
    have hpc : st.currentLine < I.lines.length :=
      Nat.lt_of_not_le (fun h1 => hg (Or.inr h1))
    split at h
    · exact absurd h (by simp)
    · rename_i line heq
      exact (machinePreserve I hF fuel).2.2.2 st line st2 hpc hstk h

/-- Iterated `step()` from any in-bounds state stays in bounds. -/
theorem runSteps_ok (I : Interp) (fuel : Nat) (hF : funcsOK I) :
    ∀ (n : Nat) (st st2 : ExecutionState), stackOK I st →
      st.currentLine ≤ I.lines.length + 1 →
      runSteps I fuel n st = some st2 →
      stackOK I st2 ∧ st2.currentLine ≤ I.lines.length + 1 := by
  intro n
  induction n with
  | zero =>
    intro st st2 hstk hle h
    simp only [runSteps] at h
    cases h
    exact ⟨hstk, hle⟩
  | succ m ih =>
    intro st st2 hstk hle h
    simp only [runSteps] at h
    split at h
    · exact absurd h (by simp)
    · rename_i st1 heq
      have h1 := stepF_ok I fuel hF st st1 hstk hle heq
      exact ih st1 st2 h1.1 h1.2 h

/-- A JS-object write reads back: `variables[k] = v` then `variables[k]`. -/
theorem envGet_envSet_self {α : Type} (env : List (String × α)) (k : String) (v : α) :
    envGet (envSet env k v) k = some v := by
  induction env with
  | nil => simp [envSet, envGet]
  | cons p t ih =>
    obtain ⟨k1, v1⟩ := p
    by_cases hk : k1 = k
    · subst hk
      simp [envSet, envGet]
    · simp [envSet, envGet, hk, ih]

/-- Storing at index `n` (with `undefined` padding) makes index `n` read
back the stored value. -/
theorem vAt_vSetPad (n : Nat) : ∀ (a v : Value), vAt (vSetPad a n v) n = v := by
  induction n with
  | zero =>
    intro a v
    cases a <;> rfl
  | succ m ih =>
    intro a v
    cases a <;> simp only [vSetPad, vAt] <;> exact ih _ _

/-! ## Claim theorems (concrete runs) -/

/-- C1: the claim says an `ELSE` reached by fall-through jumps to one past
the `ENDIF` of the innermost open `IF` frame, skipping the else-body.  The
code instead matches from the frame's opening line, which returns this very
`ELSE` line, so the counter lands on the first else-body line (line 4 here,
not 6) and the else-body executes: the program `SET a TO 0 / IF 1<2 THEN /
SET a TO 1 / ELSE / SET a TO 2 / ENDIF` ends with `a = 2` although its
then-branch ran.  The `IF` frame is indeed still on the stack after the
`ELSE` step (no pop), as the claim states. -/
theorem c1_else_fallthrough_runs_else_body :
    (runSteps ifTrueProg 100 4 initState).map
      (fun st => (st.currentLine, st.callStack.map (fun f => (f.type, f.line)))) =
      some (4, [("IF", 1)]) ∧
    findMatchingEnd ifTrueProg.lines "IF" 1 = 3 ∧
    (runSteps ifTrueProg 100 6 initState).map
      (fun st => ((envGet st.variables "a").map jsToString, st.finished)) =
      some (some "2", true) :=
  ⟨rfl, rfl, rfl⟩

/-- C2 counterexample: on a false `IF` whose block has an `ELSE`, the block
matcher returns the `ELSE` line (3) and the code sets the counter to one
past it (4, entering the else-body, with no frame pushed) — it never
matches again from the `ELSE` line to the real `ENDIF` (5), so the counter
is not `5 + 1` as the claim states. -/
theorem c2_if_false_stops_at_else_midpoint :
    findMatchingEnd ifFalseProg.lines "IF" 1 = 3 ∧
    findMatchingEnd ifFalseProg.lines "IF" 3 = 5 ∧
    (runSteps ifFalseProg 100 2 initState).map
      (fun st => (st.currentLine, st.callStack.length)) = some (4, 0) ∧
    (4 : Nat) ≠ 5 + 1 :=
  ⟨rfl, rfl, rfl, by decide⟩

/-- C3: a line starting with the `IF` keyword whose remainder has no
`THEN` falls through the dispatcher without any state change: `step()` on
the one-line program `IF x` returns the initial state unchanged (counter
still 0, not finished), and stays there forever — it does not advance by
one as the claim states. -/
theorem c3_unparsable_if_does_not_advance :
    stepF badIfProg 100 initState = some initState ∧
    runSteps badIfProg 100 5 initState = some initState :=
  ⟨rfl, rfl⟩

/-- C4 counterexample: one step on the one-line program `IF 1>2 THEN`
(false condition, no closer anywhere) sets the counter to
`findMatchingEnd + 1 = lineCount + 1 = 2`, outside the claimed interval
`[0, lineCount] = [0, 1]`. -/
theorem c4_pc_exceeds_line_count :
    unterminatedIfProg.lines.length = 1 ∧
    (stepF unterminatedIfProg 100 initState).map
      (fun st => (st.currentLine, st.finished)) = some (2, true) ∧
    ¬((2 : Nat) ≤ 1) :=
  ⟨rfl, rfl, by decide⟩

/-- C5 counterexample: with the claim's program read literally — three
lines, the whole `IF n<=1 THEN RETURN 1 ELSE RETURN n*fact(n-1) ENDIF` on
one program line — the dispatcher treats that line as a block-`IF` header
(condition `n<=1`, the rest of the line ignored), finds no `ENDIF`, and
the call returns `undefined`, not `120`. -/
theorem c5_one_line_fact_returns_undefined :
    (runSteps factOneLineProg 1000 2 initState).map
      (fun st => (envGet st.variables "r").map jsToString) = some (some "undefined") ∧
    ("undefined" : String) ≠ "120" :=
  ⟨rfl, by decide⟩

/-- C5 amended: with each statement of `fact` on its own program line,
`fact(5)` evaluates to `120`; the caller's environment right before the
call step is `a = 7` and right after it is the same environment extended
only by the assigned `r = 120` — no callee local (`n`) leaks. -/
theorem c5_multiline_fact_returns_120 :
    (runSteps factProg 1000 2 initState).map
      (fun st => st.variables.map (fun p => (p.1, jsToString p.2))) =
      some [("a", "7")] ∧
    (runSteps factProg 1000 3 initState).map
      (fun st => (st.variables.map (fun p => (p.1, jsToString p.2)), st.finished)) =
      some ([("a", "7"), ("r", "120")], true) :=
  ⟨rfl, rfl⟩

/-- C6: `FOR i ← 1 TO 3` with an `OUTPUT i / NEXT i` body runs the body
exactly for `i = 1, 2, 3` (the recorded outputs), then the re-encounter
with `i = 4 > 3` pops the frame and jumps one past the `NEXT`, finishing
the program. -/
theorem c6_for_inclusive_bound :
    (runSteps forProg 100 10 initState).map
      (fun st => (st.output, st.currentLine, st.finished,
        (envGet st.variables "i").map jsToString, st.callStack.length)) =
      some (["1", "2", "3"], 3, true, some "4", 0) :=
  rfl

/-- C7: once the engine's finished flag is set, `step()` takes the guard
branch, which only re-sets the already-true flag: every further call
returns the identical snapshot (program counter, variables, output, stack
all unchanged) and the engine state is exactly the same state. -/
theorem c7_step_idempotent_after_finished (I : Interp) (fuel : Nat)
    (st : ExecutionState) (h : st.finished = true) :
    stepF I fuel st = some st := by
  unfold stepF
  rw [if_pos (Or.inl h)]
  cases st
  simp_all

/-- C7 witness: a concrete finished state steps to itself. -/
theorem c7_step_idempotent_witness :
    stepF emptyProg 5 { initState with finished := true } =
      some { initState with finished := true } :=
  c7_step_idempotent_after_finished emptyProg 5 { initState with finished := true } rfl

/-- C8 counterexample: for the expression `x @` with `x = 5`, the final
evaluation fails, and the evaluator returns the *substituted* text
`"5 @"` — not the expression's own literal text `"x @"` as the claim
states (the two differ because the variable substitution has already been
applied to the text that is returned). -/
theorem c8_fallback_text_is_substituted :
    evaluateExpression emptyProg 50 xFiveState "x @" =
      some (.str "5 @", xFiveState) ∧
    Value.str "5 @" ≠ Value.str "x @" :=
  ⟨rfl, by decide⟩

/-- C8 amended: when the trimmed expression is no string or list literal
and the final formula evaluation of the fully processed text (after the
call-substitution loop, the array-access substitution and the variable
substitution) fails, the evaluator returns that processed text as a string
value instead of raising; it equals the expression's own text exactly when
no substitution applied. -/
theorem c8_fallback_returns_processed_text (I : Interp) (fuel : Nat)
    (st st1 : ExecutionState) (e t1 p : String)
    (hq : (strStarts (myTrim e) "\"" && strEnds (myTrim e) "\"") = false)
    (hb : (strStarts (myTrim e) "[" && strEnds (myTrim e) "]") = false)
    (hsub : (machineAt I fuel).subst st (myTrim e) = some (t1, st1))
    (hp : p = String.mk (varSubstAll st1.variables (applyArraySubst st1.variables t1.data)))
    (hplus : (strContains p '+' && strContains p '"') = false)
    (hev : evalJS p = none) :
    evaluateExpression I (fuel + 1) st e = some (.str p, st1) := by
  show (machineStep I (machineAt I fuel)).evalE st e = _
  simp only [machineStep]
  rw [hq, hb]
  simp only [Bool.false_eq_true, if_false, hsub]
  rw [← hp, hplus]
  simp only [Bool.false_eq_true, if_false, hev]

/-- C8 witness: the amended fallback applied at the concrete input
`x @` with `x = 5`. -/
theorem c8_fallback_witness :
    evaluateExpression emptyProg 50 xFiveState "x @" =
      some (.str "5 @", xFiveState) :=
  c8_fallback_returns_processed_text emptyProg 49 xFiveState xFiveState
    "x @" "x @" "5 @" rfl rfl rfl rfl rfl rfl

/-- C2 amended: when an `IF` line's condition evaluates false, no frame is
pushed and the counter is set to one past the single line the block
matcher returns — the `ELSE` midpoint when the block has one (so execution
enters the else-body), otherwise the closing line or the line count; no
second `findMatchingEnd` call is made from the `ELSE` line.  The
hypotheses mirror the dispatcher guards that route the line to the `IF`
branch. -/
theorem c2_if_false_jumps_past_matcher_line (I : Interp) (fuel : Nat)
    (st : ExecutionState) (line cond : String)
    (hcm : (strStarts (myTrim line) "#" || strStarts (myTrim line) "//") = false)
    (har : parseArrowAssign line = none)
    (hset : strStarts (upper line) "SET " = false)
    (houtp : (strStarts (upper line) "OUTPUT " || strStarts (upper line) "PRINT ") = false)
    (hin : strStarts (upper line) "INPUT " = false)
    (hif : strStarts (upper line) "IF " = true)
    (hp : scanPos (parseHeadTailAt "IF" "THEN") line.data = some cond)
    (hc : evaluateCondition st.variables cond = false) :
    executeLine I (fuel + 1) st line =
      some (finishUp I
        { st with currentLine := findMatchingEnd I.lines "IF" st.currentLine + 1 }) := by
  show (machineStep I (machineAt I fuel)).exec st line = _
  simp only [machineStep, execChain]
  rw [hcm]
  simp only [Bool.false_eq_true, if_false, har]
  rw [hset, houtp, hin, hif]
  simp only [Bool.false_eq_true, if_false, if_true, hp]
  rw [hc]
  simp only [Bool.false_eq_true, if_false]

/-- C2 witness: the amended dispatch applied at the program
`SET a TO 0 / IF 1>2 THEN / … ELSE … ENDIF` standing on its `IF` line;
the matcher returns the `ELSE` line 3, so the counter becomes 4. -/
theorem c2_if_false_witness :
    executeLine ifFalseProg 10
      { initState with currentLine := 1, «variables» := [("a", Value.num 0)] }
      "IF 1>2 THEN" =
    some { initState with currentLine := 4, «variables» := [("a", Value.num 0)] } :=
  c2_if_false_jumps_past_matcher_line ifFalseProg 9
    { initState with currentLine := 1, «variables» := [("a", Value.num 0)] }
    "IF 1>2 THEN" "1>2" rfl rfl rfl rfl rfl rfl rfl rfl

/-- C9: a `FOR` loop whose start exceeds its end still runs its body once.
First conjunct: the first encounter of a `FOR` line binds the loop
variable to the evaluated start and advances into the body for *any*
evaluated start/end values — no comparison guards entry.  Second conjunct:
a re-encounter whose loop variable is not `≤` the stored bound pops the
top frame and jumps one past the block end — the only exit.  Third
conjunct: the program `FOR i ← 5 TO 3 / OUTPUT i / NEXT i` outputs
exactly one body iteration (`i = 5`) and exits at the first re-encounter
with `i = 6`.  The guard hypotheses mirror the dispatcher chain that
routes a line to the `FOR` branch. -/
theorem c9_for_downward_runs_body_once :
    (∀ (I : Interp) (fuel : Nat) (st st1 st2 : ExecutionState)
        (line v sE eE : String) (sv ev : Value),
      (strStarts (myTrim line) "#" || strStarts (myTrim line) "//") = false →
      parseArrowAssign line = none →
      strStarts (upper line) "SET " = false →
      (strStarts (upper line) "OUTPUT " || strStarts (upper line) "PRINT ") = false →
      strStarts (upper line) "INPUT " = false →
      strStarts (upper line) "IF " = false →
      ¬(upper line = "END IF") →
      strStarts (upper line) "WHILE " = false →
      ¬(upper line = "END WHILE") →
      strStarts (upper line) "FOR " = true →
      scanPos parseForArrowAt line.data = some (v, sE, eE) →
      (st.callStack.reverse).find?
          (fun b => b.line == st.currentLine && b.type == "FOR") = none →
      (machineAt I fuel).evalE st sE = some (sv, st1) →
      (machineAt I fuel).evalE st1 eE = some (ev, st2) →
      executeLine I (fuel + 1) st line =
        some (finishUp I
          { st2 with «variables» := envSet st2.variables v sv,
                     callStack :=
                       { line := st2.currentLine, type := "FOR",
                         loopVar := some v, loopEnd := some ev } :: st2.callStack,
                     currentLine := st2.currentLine + 1 })) ∧
    (∀ (I : Interp) (fuel : Nat) (st : ExecutionState)
        (line v sE eE : String) (fr : Frame),
      (strStarts (myTrim line) "#" || strStarts (myTrim line) "//") = false →
      parseArrowAssign line = none →
      strStarts (upper line) "SET " = false →
      (strStarts (upper line) "OUTPUT " || strStarts (upper line) "PRINT ") = false →
      strStarts (upper line) "INPUT " = false →
      strStarts (upper line) "IF " = false →
      ¬(upper line = "END IF") →
      strStarts (upper line) "WHILE " = false →
      ¬(upper line = "END WHILE") →
      strStarts (upper line) "FOR " = true →
      scanPos parseForArrowAt line.data = some (v, sE, eE) →
      (st.callStack.reverse).find?
          (fun b => b.line == st.currentLine && b.type == "FOR") = some fr →
      truthy (jsRel "<="
        ((envGet st.variables (fr.loopVar.getD "")).getD .undef)
        (fr.loopEnd.getD .undef)) = false →
      executeLine I (fuel + 1) st line =
        some (finishUp I
          { st with callStack := st.callStack.tail,
                    currentLine := findMatchingEnd I.lines "FOR" st.currentLine + 1 })) ∧
    (runSteps forDownProg 100 4 initState).map
      (fun st => (st.output, st.finished, (envGet st.variables "i").map jsToString)) =
      some (["5"], true, some "6") := by
  refine ⟨?_, ?_, rfl⟩
  · intro I fuel st st1 st2 line v sE eE sv ev
      hcm har hset houtp hin hif hendif hwh hendw hfor harr hnf hs he
    show (machineStep I (machineAt I fuel)).exec st line = _
    simp only [machineStep, execChain]
    rw [hcm]
    simp only [Bool.false_eq_true, if_false, har]
    rw [hset, houtp, hin, hif]
    simp only [Bool.false_eq_true, if_false, if_neg hendif, if_neg hendw]
    rw [hwh]
    simp only [Bool.false_eq_true, if_false]
    rw [hfor]
    simp only [if_true, harr, hnf, hs, he]
  · intro I fuel st line v sE eE fr
      hcm har hset houtp hin hif hendif hwh hendw hfor harr hfind hle
    show (machineStep I (machineAt I fuel)).exec st line = _
    simp only [machineStep, execChain]
    rw [hcm]
    simp only [Bool.false_eq_true, if_false, har]
    rw [hset, houtp, hin, hif]
    simp only [Bool.false_eq_true, if_false, if_neg hendif, if_neg hendw]
    rw [hwh]
    simp only [Bool.false_eq_true, if_false]
    rw [hfor]
    simp only [if_true, harr, hfind]
    rw [hle]
    simp only [Bool.false_eq_true, if_false]

/-- C9 witness: both general conjuncts applied at the concrete program
`FOR i ← 5 TO 3 / OUTPUT i / NEXT i` — the first encounter from the
initial state (start 5 and end 3 evaluate, the body is entered), and the
re-encounter with `i = 6 > 3` (frame popped, jump to one past the
`NEXT`). -/
theorem c9_for_downward_witness :
    executeLine forDownProg 10 initState "FOR i ← 5 TO 3" =
      some { initState with
               «variables» := [("i", Value.num 5)],
               callStack := [{ line := 0, type := "FOR",
                               loopVar := some "i", loopEnd := some (Value.num 3) }],
               currentLine := 1 } ∧
    executeLine forDownProg 10
      { initState with
          «variables» := [("i", Value.num 6)],
          callStack := [{ line := 0, type := "FOR",
                          loopVar := some "i", loopEnd := some (Value.num 3) }] }
      "FOR i ← 5 TO 3" =
      some { initState with «variables» := [("i", Value.num 6)],
                            currentLine := 3, finished := true } :=
  ⟨c9_for_downward_runs_body_once.1 forDownProg 9 initState initState initState
      "FOR i ← 5 TO 3" "i" "5" "3" (Value.num 5) (Value.num 3)
      rfl rfl rfl rfl rfl rfl (by decide) rfl (by decide) rfl rfl rfl rfl rfl,
    c9_for_downward_runs_body_once.2.1 forDownProg 9
      { initState with
          «variables» := [("i", Value.num 6)],
          callStack := [{ line := 0, type := "FOR",
                          loopVar := some "i", loopEnd := some (Value.num 3) }] }
      "FOR i ← 5 TO 3" "i" "5" "3"
      { line := 0, type := "FOR", loopVar := some "i", loopEnd := some (Value.num 3) }
      rfl rfl rfl rfl rfl rfl (by decide) rfl (by decide) rfl rfl rfl rfl⟩


/-- C4 amended: the counter invariant from the constructor state is the
closed interval `[0, lineCount + 1]`, not `[0, lineCount]` — an
unterminated block jumps to `findMatchingEnd + 1 = lineCount + 1` — and
the terminal condition is `finished = true` or `counter ≥ lineCount`
(not just equality): any such state only re-sets the finished flag and
changes nothing else on every further `step()`. -/
theorem c4_counter_bound (I : Interp) (fuel n : Nat) (st2 : ExecutionState)
    (hF : funcsOK I) (hrun : runSteps I fuel n initState = some st2) :
    (stackOK I st2 ∧ st2.currentLine ≤ I.lines.length + 1) ∧
    ((st2.finished = true ∨ I.lines.length ≤ st2.currentLine) →
      stepF I fuel st2 = some { st2 with finished := true }) := by
  constructor
  · exact runSteps_ok I fuel hF n initState st2
      (fun f hm => absurd hm (List.not_mem_nil f))
      (Nat.zero_le _) hrun
  · intro ht
    unfold stepF
    rw [if_pos ht]

/-- C4 witness: one step of the empty program ends at the terminal state
`finished = true`, counter `0 = lineCount`, where a further step only
re-sets the flag. -/
theorem c4_counter_bound_witness :
    (stackOK emptyProg { initState with finished := true } ∧
      ({ initState with finished := true } : ExecutionState).currentLine ≤
        emptyProg.lines.length + 1) ∧
    ((({ initState with finished := true } : ExecutionState).finished = true ∨
        emptyProg.lines.length ≤
          ({ initState with finished := true } : ExecutionState).currentLine) →
      stepF emptyProg 5 { initState with finished := true } =
        some { { initState with finished := true } with finished := true }) :=
  c4_counter_bound emptyProg 5 1 { initState with finished := true }
    (fun nm fd h => nomatch h) rfl


/-- C10: an assignment to an array target `name[idx]` â through either the
arrow form or the `SET … TO` form â whose name is unbound or bound to a
falsy value first binds the name to a fresh empty array and then stores
the evaluated value at the evaluated (non-negative integer) index, so
after the step the name is bound to an array whose element at that index
is the assigned value.  The guard hypotheses mirror the dispatcher routes
of the two forms; the third conjunct runs both one-line programs. -/
theorem c10_array_assign_seeds_and_stores :
    (∀ (I : Interp) (fuel : Nat) (st st1 st2 : ExecutionState)
        (line target expr nm idxE : String) (i : Int) (v : Value),
      (strStarts (myTrim line) "#" || strStarts (myTrim line) "//") = false →
      parseArrowAssign line = some (target, expr) →
      parseArrayTarget target = some (nm, idxE) →
      (machineAt I fuel).evalE st idxE = some (.num i, st1) →
      (machineAt I fuel).evalE st1 expr = some (v, st2) →
      isFalsyOpt (envGet st2.variables nm) = true →
      0 ≤ i →
      executeLine I (fuel + 1) st line =
        some { st2 with
          «variables» :=
            envSet (envSet st2.variables nm .vnil) nm (vSetPad .vnil i.toNat v),
          currentLine := st2.currentLine + 1 } ∧
      envGet (envSet (envSet st2.variables nm .vnil) nm (vSetPad .vnil i.toNat v)) nm =
        some (vSetPad .vnil i.toNat v) ∧
      vAt (vSetPad .vnil i.toNat v) i.toNat = v) ∧
    (∀ (I : Interp) (fuel : Nat) (st st1 st2 : ExecutionState)
        (line target expr nm idxE : String) (i : Int) (v : Value),
      (strStarts (myTrim line) "#" || strStarts (myTrim line) "//") = false →
      parseArrowAssign line = none →
      strStarts (upper line) "SET " = true →
      scanPos parseSetAt line.data = some (target, expr) →
      parseArrayTarget target = some (nm, idxE) →
      (machineAt I fuel).evalE st idxE = some (.num i, st1) →
      (machineAt I fuel).evalE st1 expr = some (v, st2) →
      isFalsyOpt (envGet st2.variables nm) = true →
      0 ≤ i →
      executeLine I (fuel + 1) st line =
        some (finishUp I { st2 with
          «variables» :=
            envSet (envSet st2.variables nm .vnil) nm (vSetPad .vnil i.toNat v),
          currentLine := st2.currentLine + 1 })) ∧
    ((runSteps arrSeedProg 100 1 initState).map
        (fun st => ((envGet st.variables "xs").map
          (fun a => (isArr a, vlen a, jsToString (vAt a 2))), st.currentLine)) =
        some (some (true, 3, "7"), 1) ∧
      (runSteps arrSeedSetProg 100 1 initState).map
        (fun st => ((envGet st.variables "ys").map
          (fun a => (isArr a, vlen a, jsToString (vAt a 0))), st.finished)) =
        some (some (true, 1, "1"), true)) := by
  refine ⟨?_, ?_, rfl, rfl⟩
  · intro I fuel st st1 st2 line target expr nm idxE i v
      hcm har hat hidx hval hfalsy hn
    refine ⟨?_, envGet_envSet_self _ _ _, vAt_vSetPad _ _ _⟩
    show (machineStep I (machineAt I fuel)).exec st line = _
    simp only [machineStep]
    rw [hcm]
    simp only [Bool.false_eq_true, if_false, har]
    simp only [assignWith, hat, hidx, hval]
    rw [hfalsy]
    simp only [if_true, arrayStore, envGet_envSet_self, isArr]
    rw [if_pos hn]
  · intro I fuel st st1 st2 line target expr nm idxE i v
      hcm har hset hp hat hidx hval hfalsy hn
    show (machineStep I (machineAt I fuel)).exec st line = _
    simp only [machineStep, execChain]
    rw [hcm]
    simp only [Bool.false_eq_true, if_false, har]
    rw [hset]
    simp only [if_true, hp]
    simp only [assignWith, hat, hidx, hval]
    rw [hfalsy]
    simp only [if_true, arrayStore, envGet_envSet_self, isArr]
    rw [if_pos hn]


/-- C10 witness: both routes applied at concrete one-line programs â
`xs[2] ← 7` and `SET ys[0] TO 1` â from the constructor state, where the
array names are unbound. -/
theorem c10_array_assign_witness :
    (executeLine arrSeedProg 50 initState "xs[2] ← 7" =
        some { initState with
          «variables» :=
            envSet (envSet initState.variables "xs" .vnil) "xs"
              (vSetPad .vnil (Int.toNat 2) (.num 7)),
          currentLine := initState.currentLine + 1 } ∧
      envGet (envSet (envSet initState.variables "xs" .vnil) "xs"
          (vSetPad .vnil (Int.toNat 2) (.num 7))) "xs" =
        some (vSetPad .vnil (Int.toNat 2) (.num 7)) ∧
      vAt (vSetPad .vnil (Int.toNat 2) (.num 7)) (Int.toNat 2) = Value.num 7) ∧
    executeLine arrSeedSetProg 50 initState "SET ys[0] TO 1" =
      some (finishUp arrSeedSetProg { initState with
        «variables» :=
          envSet (envSet initState.variables "ys" .vnil) "ys"
            (vSetPad .vnil (Int.toNat 0) (.num 1)),
        currentLine := initState.currentLine + 1 }) :=
  ⟨c10_array_assign_seeds_and_stores.1 arrSeedProg 49 initState initState initState
      "xs[2] ← 7" "xs[2]" "7" "xs" "2" 2 (.num 7)
      rfl rfl rfl rfl rfl rfl (by decide),
    c10_array_assign_seeds_and_stores.2.1 arrSeedSetProg 49 initState initState initState
      "SET ys[0] TO 1" "ys[0]" "1" "ys" "0" 0 (.num 1)
      rfl rfl rfl rfl rfl rfl rfl rfl (by decide)⟩

end Pseudo
